import Mathlib

/-!
Verification of the route-composition and nearest-facility selection engine of
the UrbaniaAI repository (`src/pages/ORP_v2.py` and
`src/pages/Optimal_Route_Planner.py`).

Modelling conventions (shallow embedding):

* Python floats are modelled as rationals (`ℚ`); all the arithmetic the code
  performs on them (sums, means, divisions by literals, comparisons) is exact.
* A record from the open-data endpoints is a dict `{"fields": {...}}`.  The
  `fields` dict is modelled by the structure `Fields`; a record missing its
  `"fields"` key yields the empty dict via `rec.get("fields", {})`, modelled by
  `Record.fieldsD`.
* The `geo_point_2d` field value is modelled by `GeoVal`: either absent /
  `None` (`missing`) or a JSON array whose entries are numeric (`some q`) or
  non-numeric (`none`).  Python truthiness of the value is `GeoVal.truthy`.
* The external geopy `geodesic` distance backend is split into two parts: the
  success domain (`parsePoint`, modelled from the spec, see its doc comment)
  and the distance value itself, which stays an abstract parameter
  `gd : Dist`.  All theorems are universally quantified over `gd`, hence hold
  for the real ellipsoidal distance.
* An exception escaping a function is modelled by an `Option`-valued result
  being `none`; `try/except` handlers in the source map `none` back to the
  handler's value.
-/

namespace UrbaniaAI

/-- An internal coordinate: a (latitude, longitude) pair, as produced by
`geocode` and stored in well-formed `geo_point_2d` fields. -/
abbrev Coord := ℚ × ℚ

/-- The abstract geodesic distance backend: `gd a b` is
`geodesic(a, b).meters` for valid coordinate pairs `a`, `b`. -/
abbrev Dist := Coord → Coord → ℚ

/-- The value of a `geo_point_2d` field.  `missing` covers an absent key or a
JSON `null` (`fields.get` returns `None`); `arr xs` is a JSON array whose
entries are numbers (`some q`) or non-numeric values (`none`). -/
inductive GeoVal where
  | missing : GeoVal
  | arr : List (Option ℚ) → GeoVal
deriving DecidableEq

/-- Python truthiness of a `geo_point_2d` value: `None` is falsy, an array is
truthy iff it is non-empty. -/
def GeoVal.truthy : GeoVal → Bool
  | .missing => false
  | .arr xs => !xs.isEmpty

/-- Number of elements of the value, as Python `len` on the array. -/
def GeoVal.length : GeoVal → Nat
  | .missing => 0
  | .arr xs => xs.length

/-- Modelled from the spec: the repository delegates distances to the external
geopy `geodesic`, which is not part of `src/`.  Per the spec's failure
semantics (§4.1: "a malformed coordinate (wrong arity, non-numeric) causes
that single record to be skipped"), `geodesic` succeeds exactly on two-element
numeric `(lat, lon)` sequences and raises on every other value.  `parsePoint`
returns the parsed coordinate on success and `none` where `geodesic` raises.
The distance value on success is the abstract parameter `gd : Dist`. -/
def parsePoint : GeoVal → Option Coord
  | .arr [some a, some b] => some (a, b)
  | _ => none

/-- The value of an `intensidad` field, classified by how
`float(inten)` behaves on it: `absent` (key missing or `None`, filtered by
`inten is not None`), `nonnum` (a string for which `float` raises
`ValueError`, caught by the source), `typeErr` (a value such as a list for
which `float` raises `TypeError`, NOT caught by the `except ValueError`
handler), or a numeric value `num q`. -/
inductive IntenVal where
  | absent : IntenVal
  | nonnum : IntenVal
  | typeErr : IntenVal
  | num : ℚ → IntenVal
deriving DecidableEq

/-- The `fields` dict of a record, restricted to the keys the engine reads.
Defaults model the empty dict `{}`. -/
structure Fields where
  geo_point_2d : GeoVal := .missing
  intensidad : IntenVal := .absent
  lineas : Option String := none
deriving DecidableEq

/-- A dataset record; `fields := none` models a record without a `"fields"`
key. -/
structure Record where
  fields : Option Fields := none
deriving DecidableEq

/-- `rec.get("fields", {})`. -/
def Record.fieldsD (r : Record) : Fields := r.fields.getD {}

/-- The coordinate a record contributes to a spatial scan: the source first
tests truthiness (`if coords:`) and then calls `geodesic`, whose raise is
turned into `continue`; both failure ways yield `none` here. -/
def coordOf (f : Fields) : Option Coord :=
  if f.geo_point_2d.truthy then parsePoint f.geo_point_2d else none

/-- One step of the `find_closest` scan of `ORP_v2.py` (lines 74-90): skip a
record whose coordinate is falsy or makes `geodesic` raise, otherwise keep the
closer of the running best and the record, preferring the running best on
ties (`d < best_d`).  The state also carries the parsed coordinate, which the
source re-reads from the returned fields dict at the call sites. -/
def fcStep (gd : Dist) (ref : Coord) (acc : Option ((Fields × Coord) × ℚ))
    (r : Record) : Option ((Fields × Coord) × ℚ) :=
  let f := r.fieldsD
  match coordOf f with
  | none => acc
  | some c =>
    let d := gd ref c
    match acc with
    | none => some ((f, c), d)
    | some (b, bd) => if d < bd then some ((f, c), d) else some (b, bd)

/-- `find_closest` of `ORP_v2.py`, enriched with the parsed coordinate of the
winner (used by the composer when it re-reads `geo_point_2d` from the returned
fields). -/
def find_closest_c (gd : Dist) (records : List Record) (ref : Coord) :
    Option (Fields × Coord) :=
  if records.isEmpty then none
  else (records.foldl (fcStep gd ref) none).map Prod.fst

/-- `find_closest(records, ref_coords)` of `ORP_v2.py` (lines 74-90): linear
scan returning the fields dict of the record whose `geo_point_2d` is closest
to `ref`, skipping records with falsy or malformed coordinates.  (The
`not ref_coords` guard of the source never fires: `ref` is always a non-empty
tuple at the call sites.) -/
def find_closest (gd : Dist) (records : List Record) (ref : Coord) :
    Option Fields :=
  (find_closest_c gd records ref).map Prod.fst

/-- One step of `find_closest` of `Optimal_Route_Planner.py` (lines 78-94),
which additionally requires `len(coords) == 2` before calling `geodesic`. -/
def fcStepV1 (gd : Dist) (ref : Coord) (acc : Option ((Fields × Coord) × ℚ))
    (r : Record) : Option ((Fields × Coord) × ℚ) :=
  let f := r.fieldsD
  if f.geo_point_2d.truthy && (f.geo_point_2d.length == 2) then
    match parsePoint f.geo_point_2d with
    | none => acc
    | some c =>
      let d := gd ref c
      match acc with
      | none => some ((f, c), d)
      | some (b, bd) => if d < bd then some ((f, c), d) else some (b, bd)
  else acc

/-- `find_closest` of `Optimal_Route_Planner.py` (lines 78-94): same scan but
with the extra arity check `len(coords) == 2`. -/
def find_closest_v1 (gd : Dist) (records : List Record) (ref : Coord) :
    Option Fields :=
  if records.isEmpty then none
  else ((records.foldl (fcStepV1 gd ref) none).map Prod.fst).map Prod.fst

/-- Stable insertion into a key-sorted list: the new element goes after every
element whose key is ≤ its key. -/
def sortInsert (key : α → ℚ) (x : α) : List α → List α
  | [] => [x]
  | y :: ys => if key y ≤ key x then y :: sortInsert key x ys else x :: y :: ys

/-- Stable sort by key (ascending), used to model `heapq.nsmallest`, which is
documented as equivalent to `sorted(iterable, key=key)[:n]`. -/
def sortByKey (key : α → ℚ) (l : List α) : List α :=
  l.foldl (fun acc x => sortInsert key x acc) []

/-- The `valid_records` list of `k_closest`: the fields dicts with a truthy
`geo_point_2d`, in input order. -/
def truthyFields (records : List Record) : List Fields :=
  records.filterMap fun r =>
    let f := r.fieldsD
    if f.geo_point_2d.truthy then some f else none

/-- The key evaluations `nsmallest` performs: `geodesic(ref, f["geo_point_2d"])`
for every element of `valid_records`, in order.  A malformed (yet truthy)
coordinate makes the key raise, which escapes `k_closest`: result `none`. -/
def keyed (gd : Dist) (ref : Coord) : List Fields → Option (List (Fields × ℚ))
  | [] => some []
  | f :: fs =>
    match parsePoint f.geo_point_2d with
    | none => none
    | some c => (keyed gd ref fs).map (fun kv => (f, gd ref c) :: kv)

/-- `k_closest(records, ref_coords, k=20)` of `ORP_v2.py` (lines 124-142) and
`Optimal_Route_Planner.py` (lines 128-146; the two bodies are identical):
filter to records with a truthy `geo_point_2d`, then return the `k` of them
closest to `ref` via `nsmallest`.  There is no `try/except` in this function:
a truthy malformed coordinate makes the `nsmallest` key raise, modelled by the
result `none`. -/
def k_closest (gd : Dist) (records : List Record) (ref : Coord) (k : Nat) :
    Option (List Fields) :=
  if records.isEmpty then some []
  else if (truthyFields records).isEmpty then some []
  else
    match keyed gd ref (truthyFields records) with
    | none => none
    | some kv => some (((sortByKey Prod.snd kv).take k).map Prod.fst)

/-- Helper for `everyNth`: keep the elements whose (running) index is
divisible by `n`. -/
def everyNthAux (n : Nat) : Nat → List α → List α
  | _, [] => []
  | i, x :: xs =>
    if i % n = 0 then x :: everyNthAux n (i + 1) xs
    else everyNthAux n (i + 1) xs

/-- `coords[::5]`: the elements at indices 0, 5, 10, ... -/
def everyNth (n : Nat) (l : List α) : List α := everyNthAux n 0 l

/-- One point of a route geometry, as consumed by
`for lon, lat in coords[::5]`: either a well-formed `[lon, lat]` pair or a
value on which the unpacking raises. -/
inductive PtVal where
  | ok : ℚ → ℚ → PtVal
  | bad : PtVal
deriving DecidableEq

/-- A successful directions-provider response, reduced to the parts the engine
reads: the path geometry `features[0].geometry.coordinates` and the duration
`features[0].properties.summary.duration` (seconds). -/
structure Leg where
  pts : List PtVal
  duration : ℚ
deriving DecidableEq

/-- A GeoJSON-ish value handed to `traffic_penalty_seconds`: falsy (`None`),
a truthy dict without a `"features"` key, a dict where the coordinate access
`["features"][0]["geometry"]["coordinates"]` raises, or a well-formed route. -/
inductive RouteJson where
  | falsy : RouteJson
  | noFeatures : RouteJson
  | badGeom : RouteJson
  | geom : Leg → RouteJson
deriving DecidableEq

/-- The inner loop of `traffic_penalty_seconds`:
`for lon, lat in coords[::5]: if geodesic((lat, lon), tcoord).meters < radius_m: ...; break`.
`tc = none` models a traffic coordinate on which `geodesic` raises (so any
executed iteration raises); a `bad` point raises at its unpacking.  `some
true` = some sampled point is within the radius (loop broke), `some false` =
loop completed without a match, `none` = an exception escaped. -/
def scanPts (gd : Dist) (radius : ℚ) (tc : Option Coord) :
    List PtVal → Option Bool
  | [] => some false
  | .bad :: _ => none
  | .ok lon lat :: rest =>
    match tc with
    | none => none
    | some c =>
      if gd (lat, lon) c < radius then some true
      else scanPts gd radius tc rest

/-- One iteration of the record loop of `traffic_penalty_seconds`
(`ORP_v2.py` lines 103-115): records with falsy coordinate or absent
intensity are skipped, `float` raising `ValueError` skips the record,
`float` raising `TypeError` escapes (acc becomes `none`), and an exception
in the sampled-point scan escapes likewise.  A matched record appends its
intensity. -/
def trafficStep (gd : Dist) (radius : ℚ) (sub : List PtVal)
    (acc : Option (List ℚ)) (r : Record) : Option (List ℚ) :=
  match acc with
  | none => none
  | some ints =>
    let f := r.fieldsD
    if f.geo_point_2d.truthy then
      match f.intensidad with
      | .absent => some ints
      | .nonnum => some ints
      | .typeErr => none
      | .num q =>
        match scanPts gd radius (parsePoint f.geo_point_2d) sub with
        | none => none
        | some true => some (ints ++ [q])
        | some false => some ints
    else some ints

/-- `traffic_penalty_seconds(route_geojson, traffic_records, radius_m=50)` of
`ORP_v2.py` (lines 92-122).  The whole body after the guard sits in a
`try/except Exception: return 0`, so an escaping exception yields 0. -/
def traffic_penalty_seconds (gd : Dist) (rj : RouteJson)
    (traffic : List Record) (radius : ℚ) : ℚ :=
  match rj with
  | .falsy => 0
  | .noFeatures => 0
  | .badGeom => 0
  | .geom leg =>
    match traffic.foldl (trafficStep gd radius (everyNth 5 leg.pts)) (some []) with
    | none => 0
    | some [] => 0
    | some ints => ints.sum / (ints.length : ℚ) / 100 * 60

/-- `traffic_penalty_seconds` of `Optimal_Route_Planner.py` (lines 96-126):
identical body, but the early guard is
`if not route_geojson or not traffic_records: return 0` instead of the
`"features" not in route_geojson` test (a featureless dict then raises
`KeyError` inside the `try`, caught to 0). -/
def traffic_penalty_seconds_v1 (gd : Dist) (rj : RouteJson)
    (traffic : List Record) (radius : ℚ) : ℚ :=
  match rj with
  | .falsy => 0
  | .noFeatures => 0
  | .badGeom => 0
  | .geom leg =>
    if traffic.isEmpty then 0
    else
      match traffic.foldl (trafficStep gd radius (everyNth 5 leg.pts)) (some []) with
      | none => 0
      | some [] => 0
      | some ints => ints.sum / (ints.length : ℚ) / 100 * 60

/-- Python `s.split(sep)` on a character list: `[] ↦ [[]]`, and a separator
opens a new chunk. -/
def splitChars (sep : Char) : List Char → List (List Char)
  | [] => [[]]
  | c :: cs =>
    let r := splitChars sep cs
    if c = sep then [] :: r
    else
      match r with
      | [] => [[c]]
      | h :: t => (c :: h) :: t

/-- Python `s.strip()`: drop leading and trailing whitespace. -/
def stripChars (cs : List Char) : List Char :=
  ((cs.dropWhile Char.isWhitespace).reverse.dropWhile Char.isWhitespace).reverse

/-- `{l.strip() for l in s.split(",") if l.strip()}` — the line identifiers of
a `lineas` string.  The source builds a set; this model keeps the list (the
engine only uses membership and emptiness, which agree with the set). -/
def parseLines (s : String) : List String :=
  (((splitChars ',' s.toList).map fun cs => String.mk (stripChars cs)).filter
    fun l => l ≠ "")

/-- The line identifiers of a stop: `stop.get("lineas", "")`. -/
def linesOf (f : Fields) : List String := parseLines (f.lineas.getD "")

/-- `common_lines(stop_a, stop_b)` of `ORP_v2.py` (lines 144-148), as the list
of lines of `a` that `b` also carries (same membership and emptiness as the
source's set intersection `sa & sb`). -/
def commonLines (a b : Fields) : List String :=
  (linesOf a).filter fun l => (linesOf b).contains l

/-- The candidate pair chosen by the bus pairing loop, with the parsed stop
coordinates, the line handed to `next(iter(lines))` and the walking score. -/
structure BusSel where
  s : Fields
  sc : Coord
  e : Fields
  ec : Coord
  line : String
  score : ℚ
deriving DecidableEq

/-- One iteration of the inner loop of the bus pairing selector (`ORP_v2.py`
lines 311-319): skip a pair with no shared line; otherwise the walking score
`geodesic(start, s) + geodesic(end, e)` replaces the running best iff strictly
smaller.  A malformed candidate coordinate makes `geodesic` raise: the
exception escapes the whole selection (`none`). -/
def busPairStep (gd : Dist) (start_ end_ : Coord) (s : Fields)
    (acc : Option (Option BusSel)) (e : Fields) : Option (Option BusSel) :=
  match acc with
  | none => none
  | some st =>
    match commonLines s e with
    | [] => some st
    | l0 :: _ =>
      match parsePoint s.geo_point_2d, parsePoint e.geo_point_2d with
      | some sc, some ec =>
        let w := gd start_ sc + gd end_ ec
        match st with
        | none => some (some ⟨s, sc, e, ec, l0, w⟩)
        | some b =>
          if w < b.score then some (some ⟨s, sc, e, ec, l0, w⟩)
          else some (some b)
      | _, _ => none

/-- The bus pairing double loop of `get_route_data` (`ORP_v2.py` lines
309-319) over candidate sets `A` (near start) and `B` (near end).
`some none` = loop finished with no pair sharing a line, `some (some sel)` =
best pair found, `none` = `geodesic` raised on a candidate coordinate. -/
def busBestPair (gd : Dist) (start_ end_ : Coord) (A B : List Fields) :
    Option (Option BusSel) :=
  A.foldl (fun acc s => B.foldl (busPairStep gd start_ end_ s) acc) (some none)

/-- The user-facing notice string of `get_route_data`, with the formatted
numbers kept symbolic (seconds; the source renders `secs/60` with one decimal).
Each constructor corresponds to one literal f-string of `ORP_v2.py`:
`carTotal total penalty` = "Est. total time: ... (traffic +...)",
`driveTotal` = "Est. driving time: ...", `bikeTotal` = "Estimated total
time: ...", `walkTotal` = "Estimated walking time: ...", `busTotal line
total` = "Estimated time with line ...", and the four fixed failure texts. -/
inductive Notice where
  | empty : Notice
  | noParking : Notice
  | noStations : Notice
  | noStops : Notice
  | noLine : Notice
  | carTotal : ℚ → ℚ → Notice
  | driveTotal : ℚ → ℚ → Notice
  | bikeTotal : ℚ → Notice
  | walkTotal : ℚ → Notice
  | busTotal : String → ℚ → Notice
  | errorText : Notice
deriving DecidableEq

/-- An entry of `result["routes"]`. -/
structure RouteEntry where
  geojson : Leg
  color : String
  name : String
deriving DecidableEq

/-- An entry of `result["markers"]` (the raw `geo_point_2d` value plus tooltip
and color). -/
structure Marker where
  coords : GeoVal
  tooltip : String
  color : String
deriving DecidableEq

/-- The cacheable result dict of `get_route_data` (geocoding modelled out:
`start_coords`/`end_coords` are inputs here). -/
structure RouteResult where
  routes : List RouteEntry := []
  markers : List Marker := []
  notice : Notice := .empty
  error : Bool := false
deriving DecidableEq

/-- One call to `get_route` (the external directions provider): the coordinate
list and profile token passed through to `ors_client.directions`. -/
structure ProviderCall where
  coords : List Coord
  profile : String
deriving DecidableEq

/-- The external directions provider `get_route(coords, profile)`: `none`
models a failure (`get_route` catches every exception and returns `None`). -/
abbrev Provider := List Coord → String → Option Leg

/-- The result of the `except Exception` handler of `get_route_data`: no
routes or markers were accumulated on any path that raises (the raises happen
before anything is appended), `result["error"]` is set and the notice shows
the error text. -/
def errResult : RouteResult :=
  { routes := [], markers := [], notice := .errorText, error := true }

/-- The Car / "Parking garage" branch of `get_route_data` (`ORP_v2.py` lines
237-259), returning the result dict together with the provider calls made.
`start_coords[::-1]` and `parking["geo_point_2d"][::-1]` reverse a two-element
sequence: `Prod.swap`. -/
def carGarageBranch (gd : Dist) (prov : Provider)
    (parkings traffic : List Record) (start_ end_ : Coord) :
    RouteResult × List ProviderCall :=
  match find_closest_c gd parkings end_ with
  | none => ({ notice := .noParking }, [])
  | some (parking, pc) =>
    let mk : Marker := ⟨parking.geo_point_2d, "Nearest Parking Garage", "blue"⟩
    let c1 : ProviderCall := ⟨[Prod.swap start_, Prod.swap pc], "driving-car"⟩
    let c2 : ProviderCall := ⟨[Prod.swap pc, Prod.swap end_], "foot-walking"⟩
    match prov c1.coords c1.profile, prov c2.coords c2.profile with
    | some r1, some r2 =>
      let penalty := traffic_penalty_seconds gd (.geom r1) traffic 50
      ({ routes := [⟨r1, "blue", "Drive to parking"⟩,
                    ⟨r2, "green", "Walk to destination"⟩],
         markers := [mk],
         notice := .carTotal (r1.duration + r2.duration + penalty) penalty },
       [c1, c2])
    | _, _ => ({ markers := [mk] }, [c1, c2])

/-- The Car / street-parking branch of `get_route_data` (`ORP_v2.py` lines
260-266). -/
def carStreetBranch (gd : Dist) (prov : Provider) (traffic : List Record)
    (start_ end_ : Coord) : RouteResult × List ProviderCall :=
  let c1 : ProviderCall := ⟨[Prod.swap start_, Prod.swap end_], "driving-car"⟩
  match prov c1.coords c1.profile with
  | some r =>
    let penalty := traffic_penalty_seconds gd (.geom r) traffic 50
    ({ routes := [⟨r, "blue", "Driving route"⟩],
       notice := .driveTotal (r.duration + penalty) penalty }, [c1])
  | none => ({}, [c1])

/-- The Valenbisi branch of `get_route_data` (`ORP_v2.py` lines 269-292). -/
def valenbisiBranch (gd : Dist) (prov : Provider) (bikes : List Record)
    (start_ end_ : Coord) : RouteResult × List ProviderCall :=
  match find_closest_c gd bikes start_, find_closest_c gd bikes end_ with
  | some (stS, cS), some (stE, cE) =>
    let mks : List Marker :=
      [⟨stS.geo_point_2d, "Bike pickup", "orange"⟩,
       ⟨stE.geo_point_2d, "Bike dropoff", "purple"⟩]
    let q1 : ProviderCall := ⟨[Prod.swap start_, Prod.swap cS], "foot-walking"⟩
    let q2 : ProviderCall := ⟨[Prod.swap cS, Prod.swap cE], "cycling-regular"⟩
    let q3 : ProviderCall := ⟨[Prod.swap cE, Prod.swap end_], "foot-walking"⟩
    match prov q1.coords q1.profile, prov q2.coords q2.profile,
          prov q3.coords q3.profile with
    | some w1, some bk, some w2 =>
      ({ routes := [⟨w1, "green", "Walk to bike"⟩, ⟨bk, "orange", "Bike route"⟩,
                    ⟨w2, "green", "Walk from bike"⟩],
         markers := mks,
         notice := .bikeTotal (w1.duration + bk.duration + w2.duration) },
       [q1, q2, q3])
    | _, _, _ => ({ markers := mks }, [q1, q2, q3])
  | _, _ => ({ notice := .noStations }, [])

/-- The Walking branch of `get_route_data` (`ORP_v2.py` lines 295-299). -/
def walkingBranch (prov : Provider) (start_ end_ : Coord) :
    RouteResult × List ProviderCall :=
  let c1 : ProviderCall := ⟨[Prod.swap start_, Prod.swap end_], "foot-walking"⟩
  match prov c1.coords c1.profile with
  | some r =>
    ({ routes := [⟨r, "green", "Walking route"⟩],
       notice := .walkTotal r.duration }, [c1])
  | none => ({}, [c1])

/-- The Bus branch of `get_route_data` (`ORP_v2.py` lines 302-343).  The
`k_closest` calls and the pairing loop can raise (modelled `none`); the raise
is caught by the branch-wide `except Exception`, which has accumulated no
routes or markers at that point (`errResult`). -/
def busBranch (gd : Dist) (prov : Provider) (buses : List Record)
    (start_ end_ : Coord) : RouteResult × List ProviderCall :=
  match k_closest gd buses start_ 20 with
  | none => (errResult, [])
  | some A =>
    match k_closest gd buses end_ 20 with
    | none => (errResult, [])
    | some B =>
      if A.isEmpty || B.isEmpty then ({ notice := .noStops }, [])
      else
        match busBestPair gd start_ end_ A B with
        | none => (errResult, [])
        | some none => ({ notice := .noLine }, [])
        | some (some sel) =>
          let mks : List Marker :=
            [⟨sel.s.geo_point_2d, "Start stop · LINE " ++ sel.line, "lightblue"⟩,
             ⟨sel.e.geo_point_2d, "End stop · LINE " ++ sel.line, "lightblue"⟩]
          let q1 : ProviderCall :=
            ⟨[Prod.swap start_, Prod.swap sel.sc], "foot-walking"⟩
          let q2 : ProviderCall :=
            ⟨[Prod.swap sel.ec, Prod.swap end_], "foot-walking"⟩
          let q3 : ProviderCall :=
            ⟨[Prod.swap sel.sc, Prod.swap sel.ec], "driving-car"⟩
          match prov q1.coords q1.profile, prov q2.coords q2.profile,
                prov q3.coords q3.profile with
          | some w1, some w2, some br =>
            ({ routes := [⟨w1, "green", "Walk to bus"⟩,
                          ⟨w2, "green", "Walk from bus"⟩,
                          ⟨br, "red", "Línea " ++ sel.line⟩],
               markers := mks,
               notice := .busTotal sel.line
                 (w1.duration + br.duration + w2.duration + 7 * 60) },
             [q1, q2, q3])
          | _, _, _ => ({ markers := mks }, [q1, q2, q3])

/-- `get_route_data` of `ORP_v2.py` (lines 213-349), after successful
geocoding of both addresses, returning the result dict and the ordered list
of directions-provider calls made.  `transport_mode` and `use_parking` keep
their source string values. -/
def get_route_data (gd : Dist) (prov : Provider)
    (parkings bikes traffic buses : List Record)
    (transport_mode : String) (use_parking : Option String)
    (start_ end_ : Coord) : RouteResult × List ProviderCall :=
  if transport_mode = "Car" then
    if use_parking = some "Parking garage" then
      carGarageBranch gd prov parkings traffic start_ end_
    else carStreetBranch gd prov traffic start_ end_
  else if transport_mode = "Valenbisi" then
    valenbisiBranch gd prov bikes start_ end_
  else if transport_mode = "Walking" then
    walkingBranch prov start_ end_
  else if transport_mode = "Bus" then
    busBranch gd prov buses start_ end_
  else ({}, [])

/-! ### Specification-side definitions used to state the theorems -/

/-- One step of the generic "keep the first strict minimum" scan that both
`find_closest` and the bus pairing loop instantiate. -/
def selMinStep (score : α → ℚ) (acc : Option α) (x : α) : Option α :=
  match acc with
  | none => some x
  | some b => if score x < score b then some x else some b

/-- Linear scan keeping the first element of strictly smallest score. -/
def selMin (score : α → ℚ) (acc : Option α) (l : List α) : Option α :=
  l.foldl (selMinStep score) acc

/-- The records that take part in a `find_closest` scan, with their parsed
coordinates, in input order. -/
def withCoords (records : List Record) : List (Fields × Coord) :=
  records.filterMap fun r => (coordOf r.fieldsD).map fun c => (r.fieldsD, c)

/-- The score `find_closest` minimizes. -/
def scoreOf (gd : Dist) (ref : Coord) (fc : Fields × Coord) : ℚ := gd ref fc.2

/-- `f` is the first-encountered valid record of minimal geodesic distance to
`ref`: its distance is ≤ that of every valid record, and strictly smaller
than that of every valid record occurring before it. -/
def FirstMinAt (gd : Dist) (ref : Coord) (records : List Record)
    (f : Fields) : Prop :=
  ∃ c pre post,
    coordOf f = some c ∧
    withCoords records = pre ++ (f, c) :: post ∧
    (∀ g ∈ pre, gd ref c < gd ref g.2) ∧
    (∀ g ∈ post, gd ref c ≤ gd ref g.2) ∧
    (∀ g ∈ withCoords records, gd ref c ≤ gd ref g.2)

/-- The candidate entry the bus pairing loop considers for the pair `(s, e)`:
`none` when the stops share no line; otherwise the selection record with the
first shared line and the walking score (defined only when both stop
coordinates parse — the loop raises otherwise). -/
def pairOf (gd : Dist) (start_ end_ : Coord) (s e : Fields) : Option BusSel :=
  match commonLines s e with
  | [] => none
  | l0 :: _ =>
    match parsePoint s.geo_point_2d, parsePoint e.geo_point_2d with
    | some sc, some ec => some ⟨s, sc, e, ec, l0, gd start_ sc + gd end_ ec⟩
    | _, _ => none

/-- All sharing candidate pairs in loop order (outer loop over `A`, inner
over `B`). -/
def pairsList (gd : Dist) (start_ end_ : Coord) (A B : List Fields) :
    List BusSel :=
  A.flatMap fun s => B.filterMap fun e => pairOf gd start_ end_ s e

/-- Whether one sampled path point lies within the radius of `c`. -/
def ptHit (gd : Dist) (radius : ℚ) (c : Coord) : PtVal → Bool
  | .ok lon lat => decide (gd (lat, lon) c < radius)
  | .bad => false

/-- The intensity a traffic record contributes per the claim's reading: some
`q` iff the record has a truthy well-formed coordinate, numeric intensity `q`,
and some subsampled path point within the radius. -/
def matchedIntensity (gd : Dist) (radius : ℚ) (sub : List PtVal)
    (r : Record) : Option ℚ :=
  let f := r.fieldsD
  if f.geo_point_2d.truthy then
    match f.intensidad with
    | .num q =>
      match parsePoint f.geo_point_2d with
      | some c => if sub.any (ptHit gd radius c) then some q else none
      | none => none
    | _ => none
  else none

/-- The matched intensities of a traffic record set, in input order. -/
def matchedIntensities (gd : Dist) (radius : ℚ) (sub : List PtVal)
    (traffic : List Record) : List ℚ :=
  traffic.filterMap (matchedIntensity gd radius sub)

/-- Whether a path point is the `bad` (unpacking-raises) value. -/
def PtVal.isBad : PtVal → Bool
  | .bad => true
  | _ => false

/-- No subsampled point of the path raises at unpacking. -/
def noBadPts (pts : List PtVal) : Bool :=
  (everyNth 5 pts).all fun p => !p.isBad

/-- A traffic record that cannot make the penalty scan raise: its intensity
is not a `float`-`TypeError` value, and if it would reach the distance test
(truthy coordinate with numeric intensity) its coordinate parses. -/
def wfTrafficRec (f : Fields) : Bool :=
  match f.intensidad with
  | .typeErr => false
  | .num _ => !f.geo_point_2d.truthy || (parsePoint f.geo_point_2d).isSome
  | _ => true

/-- The numeric intensity of the record, when numeric, is nonnegative. -/
def intenNonneg : IntenVal → Bool
  | .num q => decide (0 ≤ q)
  | _ => true

/-- The three profile tokens the engine ever passes to the provider. -/
def validTokens : List String :=
  ["foot-walking", "driving-car", "cycling-regular"]

/-- Every internal `(lat, lon)` coordinate the composer can hand to the
provider: the geocoded endpoints and the parsed coordinates of the dataset
records. -/
def internalCoords (parkings bikes buses : List Record)
    (start_ end_ : Coord) : List Coord :=
  start_ :: end_ :: (parkings ++ bikes ++ buses).filterMap
    fun r => coordOf r.fieldsD

/-- A provider call respects the boundary convention: its profile token is
one of the three valid ones, and its coordinate list is exactly two internal
(lat, lon) coordinates, each reversed to (lon, lat). -/
def callOk (parkings bikes buses : List Record) (start_ end_ : Coord)
    (c : ProviderCall) : Prop :=
  c.profile ∈ validTokens ∧
    ∃ a b, a ∈ internalCoords parkings bikes buses start_ end_ ∧
      b ∈ internalCoords parkings bikes buses start_ end_ ∧
      c.coords = [Prod.swap a, Prod.swap b]

/-! ### Concrete inputs for witnesses and counterexamples -/

/-- A concrete distance backend for witnesses: squared euclidean distance
(any `Dist` works for the universally quantified theorems). -/
def wGd : Dist := fun a b => (a.1 - b.1) ^ 2 + (a.2 - b.2) ^ 2

/-- A valid record at (0, 10). -/
def wRecFar : Record := ⟨some { geo_point_2d := .arr [some 0, some 10] }⟩

/-- A valid record at (0, 1). -/
def wRecNear : Record := ⟨some { geo_point_2d := .arr [some 0, some 1] }⟩

/-- A record with a truthy but malformed (non-numeric) coordinate. -/
def wRecBad : Record := ⟨some { geo_point_2d := .arr [none] }⟩

/-- A record with no coordinate at all. -/
def wRecNone : Record := ⟨some {}⟩

/-- The record list for the C1 witness. -/
def wRecs : List Record := [wRecFar, wRecNear, wRecBad, wRecNone]

/-- The fields of `wRecNear`, the expected winner of the C1 witness scan. -/
def wFNear : Fields := { geo_point_2d := .arr [some 0, some 1] }

/-- A bus stop near (0, 0) carrying line C2. -/
def wStopS : Fields := { geo_point_2d := .arr [some 0, some 1], lineas := some "C2" }

/-- A bus stop near (0, 10) carrying line C2. -/
def wStopE : Fields := { geo_point_2d := .arr [some 0, some 9], lineas := some "C2" }

/-- A two-stop bus dataset. -/
def wBuses : List Record := [⟨some wStopS⟩, ⟨some wStopE⟩]

/-- A one-point driving leg of duration 600 s through (0, 0). -/
def wLegD : Leg := ⟨[.ok 0 0], 600⟩

/-- A walking leg of duration 300 s. -/
def wLegW : Leg := ⟨[], 300⟩

/-- A provider that always answers: the driving profile gets `wLegD`, the
other profiles get `wLegW`. -/
def wProvAll : Provider := fun _ p =>
  if p = "driving-car" then some wLegD else some wLegW

/-- A provider whose every call fails. -/
def wProvFail : Provider := fun _ _ => none

/-- A traffic record at (0, 0) with intensity 200, matched by `wLegD`. -/
def wTrafficGood : Record :=
  ⟨some { geo_point_2d := .arr [some 0, some 0], intensidad := .num 200 }⟩

/-- A traffic record with a truthy malformed coordinate and numeric
intensity: reaching its distance test raises. -/
def wTrafficPoison : Record :=
  ⟨some { geo_point_2d := .arr [none], intensidad := .num 1 }⟩

/-- A matched traffic record with negative numeric intensity. -/
def wTrafficNeg : Record :=
  ⟨some { geo_point_2d := .arr [some 0, some 0], intensidad := .num (-100) }⟩

/-- The expected winning pair of the witness bus selection: both stops on
line C2, total walking score 1 + 1 = 2. -/
def wSel : BusSel := ⟨wStopS, (0, 1), wStopE, (0, 9), "C2", 2⟩

/-! ### Lemmas about the first-strict-minimum scan -/

theorem selMin_cons (score : α → ℚ) (acc : Option α) (x : α) (l : List α) :
    selMin score acc (x :: l) = selMin score (selMinStep score acc x) l := rfl

theorem selMin_isSome (score : α → ℚ) (b : α) (l : List α) :
    (selMin score (some b) l).isSome := by
  induction l generalizing b with
  | nil => rfl
  | cons x xs ih =>
    rw [selMin_cons]
    simp only [selMinStep]
    split
    · exact ih x
    · exact ih b

theorem selMin_some_spec (score : α → ℚ) (b : α) (l : List α) (f : α)
    (h : selMin score (some b) l = some f) :
    ∃ pre post, b :: l = pre ++ f :: post ∧
      (∀ g ∈ pre, score f < score g) ∧ (∀ g ∈ post, score f ≤ score g) := by
  induction l generalizing b with
  | nil =>
    cases h
    exact ⟨[], [], rfl, by simp, by simp⟩
  | cons x xs ih =>
    rw [selMin_cons] at h
    simp only [selMinStep] at h
    by_cases hlt : score x < score b
    · rw [if_pos hlt] at h
      obtain ⟨pre, post, heq, hpre, hpost⟩ := ih x h
      have hfx : score f ≤ score x := by
        cases pre with
        | nil =>
          simp only [List.nil_append] at heq
          injection heq with h1 _
          rw [h1]
        | cons p pre' =>
          simp only [List.cons_append] at heq
          injection heq with h1 _
          exact le_of_lt (h1 ▸ hpre p (List.mem_cons_self p pre'))
      refine ⟨b :: pre, post, ?_, ?_, hpost⟩
      · rw [List.cons_append, ← heq]
      · intro g hg
        rcases List.mem_cons.mp hg with rfl | hg'
        · exact lt_of_le_of_lt hfx hlt
        · exact hpre g hg'
    · rw [if_neg hlt] at h
      obtain ⟨pre, post, heq, hpre, hpost⟩ := ih b h
      cases pre with
      | nil =>
        simp only [List.nil_append] at heq
        injection heq with h1 h2
        refine ⟨[], x :: xs, by rw [h1]; rfl, by simp, ?_⟩
        intro g hg
        rcases List.mem_cons.mp hg with rfl | hg'
        · rw [← h1]; exact le_of_not_lt hlt
        · exact hpost g (h2 ▸ hg')
      | cons p pre' =>
        simp only [List.cons_append] at heq
        injection heq with h1 h2
        have hb : score f < score b :=
          h1 ▸ hpre p (List.mem_cons_self p pre')
        refine ⟨b :: x :: pre', post, ?_, ?_, hpost⟩
        · rw [List.cons_append, List.cons_append, ← h2]
        · intro g hg
          rcases List.mem_cons.mp hg with rfl | hg'
          · exact hb
          · rcases List.mem_cons.mp hg' with rfl | hg''
            · exact lt_of_lt_of_le hb (le_of_not_lt hlt)
            · exact hpre g (List.mem_cons_of_mem p hg'')

theorem selMin_none_iff (score : α → ℚ) (l : List α) :
    selMin score none l = none ↔ l = [] := by
  cases l with
  | nil => simp [selMin]
  | cons x xs =>
    constructor
    · intro h
      have hs := selMin_isSome score x xs
      rw [show selMin score none (x :: xs) = selMin score (some x) xs from rfl]
        at h
      rw [h] at hs
      cases hs
    · intro h
      cases h

theorem selMin_none_spec (score : α → ℚ) (l : List α) (f : α)
    (h : selMin score none l = some f) :
    ∃ pre post, l = pre ++ f :: post ∧
      (∀ g ∈ pre, score f < score g) ∧ (∀ g ∈ post, score f ≤ score g) := by
  cases l with
  | nil => cases h
  | cons x xs => exact selMin_some_spec score x xs f h

theorem selMin_none_min (score : α → ℚ) (l : List α) (f : α)
    (h : selMin score none l = some f) : ∀ g ∈ l, score f ≤ score g := by
  obtain ⟨pre, post, heq, hpre, hpost⟩ := selMin_none_spec score l f h
  intro g hg
  rw [heq] at hg
  rcases List.mem_append.mp hg with h1 | h2
  · exact le_of_lt (hpre g h1)
  · rcases List.mem_cons.mp h2 with rfl | h3
    · exact le_refl _
    · exact hpost g h3

theorem selMin_none_mem (score : α → ℚ) (l : List α) (f : α)
    (h : selMin score none l = some f) : f ∈ l := by
  obtain ⟨pre, post, heq, _, _⟩ := selMin_none_spec score l f h
  rw [heq]
  exact List.mem_append.mpr (Or.inr (List.mem_cons_self f post))

/-! ### `find_closest` is the first-strict-minimum scan over `withCoords` -/

theorem withCoords_cons_none (r : Record) (rs : List Record)
    (hc : coordOf r.fieldsD = none) : withCoords (r :: rs) = withCoords rs := by
  unfold withCoords
  rw [List.filterMap_cons, hc]
  rfl

theorem withCoords_cons_some (r : Record) (rs : List Record) (c : Coord)
    (hc : coordOf r.fieldsD = some c) :
    withCoords (r :: rs) = (r.fieldsD, c) :: withCoords rs := by
  unfold withCoords
  rw [List.filterMap_cons, hc]
  rfl

theorem fcFold_eq (gd : Dist) (ref : Coord) (l : List Record) :
    ∀ acc : Option (Fields × Coord),
      l.foldl (fcStep gd ref) (acc.map fun fc => (fc, gd ref fc.2)) =
        (selMin (scoreOf gd ref) acc (withCoords l)).map
          fun fc => (fc, gd ref fc.2) := by
  induction l with
  | nil => intro acc; rfl
  | cons r rs ih =>
    intro acc
    rw [List.foldl_cons]
    rcases hc : coordOf r.fieldsD with _ | c
    · have h1 : fcStep gd ref (acc.map fun fc => (fc, gd ref fc.2)) r
          = acc.map fun fc => (fc, gd ref fc.2) := by
        simp only [fcStep, hc]
      rw [h1, withCoords_cons_none r rs hc]
      exact ih acc
    · have h1 : fcStep gd ref (acc.map fun fc => (fc, gd ref fc.2)) r
          = (selMinStep (scoreOf gd ref) acc (r.fieldsD, c)).map
              fun fc => (fc, gd ref fc.2) := by
        simp only [fcStep, selMinStep, hc]
        cases acc with
        | none => rfl
        | some b =>
          simp only [Option.map_some', scoreOf]
          by_cases hlt : gd ref c < gd ref b.2
          · simp [hlt]
          · simp [hlt]
      rw [h1, withCoords_cons_some r rs c hc, selMin_cons]
      exact ih _

theorem find_closest_c_eq (gd : Dist) (records : List Record) (ref : Coord) :
    find_closest_c gd records ref
      = selMin (scoreOf gd ref) none (withCoords records) := by
  unfold find_closest_c
  by_cases h : records.isEmpty
  · rw [if_pos h]
    have hr : records = [] := List.isEmpty_iff.mp h
    subst hr
    rfl
  · rw [if_neg h]
    have hb := fcFold_eq gd ref records none
    simp only [Option.map_none'] at hb
    rw [hb]
    cases selMin (scoreOf gd ref) none (withCoords records) <;> rfl

theorem withCoords_mem {records : List Record} {fc : Fields × Coord}
    (h : fc ∈ withCoords records) :
    ∃ r ∈ records, r.fieldsD = fc.1 ∧ coordOf fc.1 = some fc.2 := by
  unfold withCoords at h
  rw [List.mem_filterMap] at h
  obtain ⟨r, hr, hmap⟩ := h
  rcases ho : coordOf r.fieldsD with _ | c
  · rw [ho] at hmap; cases hmap
  · rw [ho] at hmap
    injection hmap with h1
    refine ⟨r, hr, ?_, ?_⟩
    · rw [← h1]
    · rw [← h1]
      exact ho

/-- C1: for every distance backend, facility list and reference coordinate,
`find_closest` (nearest) returns `none` exactly when the list is empty or no
record carries a usable coordinate; otherwise it returns a record with a
valid coordinate whose geodesic distance to the reference is ≤ that of every
other valid record, and under distance ties the first-encountered record in
input order wins (every valid record before the winner is strictly
farther). -/
theorem find_closest_minimal (gd : Dist) (records : List Record) (ref : Coord) :
    (find_closest gd records ref = none ↔ withCoords records = []) ∧
    ∀ f, find_closest gd records ref = some f → FirstMinAt gd ref records f := by
  constructor
  · unfold find_closest
    rw [find_closest_c_eq, Option.map_eq_none']
    exact selMin_none_iff _ _
  · intro f hf
    unfold find_closest at hf
    rw [find_closest_c_eq] at hf
    rcases hsel : selMin (scoreOf gd ref) none (withCoords records) with _ | fc
    · rw [hsel] at hf; cases hf
    · rw [hsel] at hf
      injection hf with h1
      obtain ⟨pre, post, heq, hpre, hpost⟩ := selMin_none_spec _ _ _ hsel
      have hmem : fc ∈ withCoords records := selMin_none_mem _ _ _ hsel
      obtain ⟨r, hr, hrf, hco⟩ := withCoords_mem hmem
      have hmin := selMin_none_min _ _ _ hsel
      have hfc : (f, fc.2) = fc := by rw [← h1]
      refine ⟨fc.2, pre, post, ?_, ?_, ?_, ?_, ?_⟩
      · rw [← h1]; exact hco
      · rw [hfc]; exact heq
      · exact hpre
      · exact hpost
      · exact hmin

/-- Witness for C1 at a concrete input: the scan over a far valid record, a
near valid record, a malformed record and a coordinate-less record returns
the near record, and it is the first minimum. -/
theorem find_closest_minimal_witness :
    find_closest wGd wRecs (0, 0) = some wFNear ∧
      FirstMinAt wGd (0, 0) wRecs wFNear := by
  have hfc : find_closest wGd wRecs (0, 0) = some wFNear := by
    norm_num [find_closest, find_closest_c, fcStep, coordOf, parsePoint,
      GeoVal.truthy, Record.fieldsD, wGd, wRecs, wRecFar, wRecNear, wRecBad,
      wRecNone, wFNear]
  exact ⟨hfc, (find_closest_minimal wGd wRecs (0, 0)).2 wFNear hfc⟩

/-! ### The two `find_closest` variants coincide -/

theorem parsePoint_single (x0 : Option ℚ) : parsePoint (.arr [x0]) = none := by
  cases x0 <;> rfl

theorem parsePoint_long (x0 x1 x2 : Option ℚ) (xs : List (Option ℚ)) :
    parsePoint (.arr (x0 :: x1 :: x2 :: xs)) = none := by
  cases x0 <;> cases x1 <;> rfl

theorem parsePoint_fst_none (x1 : Option ℚ) :
    parsePoint (.arr [none, x1]) = none := by
  cases x1 <;> rfl

theorem fcStepV1_eq_fcStep (gd : Dist) (ref : Coord)
    (acc : Option ((Fields × Coord) × ℚ)) (r : Record) :
    fcStepV1 gd ref acc r = fcStep gd ref acc r := by
  rcases hg : r.fieldsD.geo_point_2d with _ | xs
  · simp only [fcStepV1, fcStep, coordOf, hg]; rfl
  · rcases xs with _ | ⟨x0, xs1⟩
    · simp only [fcStepV1, fcStep, coordOf, hg]; rfl
    · rcases xs1 with _ | ⟨x1, xs2⟩
      · simp only [fcStepV1, fcStep, coordOf, hg, parsePoint_single]; rfl
      · rcases xs2 with _ | ⟨x2, xs3⟩
        · rcases x0 with _ | a
          · simp only [fcStepV1, fcStep, coordOf, hg, parsePoint_fst_none]; rfl
          · rcases x1 with _ | b
            · simp only [fcStepV1, fcStep, coordOf, hg]; rfl
            · simp only [fcStepV1, fcStep, coordOf, hg]; rfl
        · simp only [fcStepV1, fcStep, coordOf, hg, parsePoint_long]; rfl

/-- C10: the `find_closest` of `Optimal_Route_Planner.py` (with the extra
`len(coords) == 2` arity check) and the `find_closest` of `ORP_v2.py`
(exception-guarded only) return the same result for every list of records,
every reference coordinate and every distance backend: under the modelled
geodesic domain (which raises on every non-two-element coordinate, per the
spec's failure semantics), the arity check is redundant. -/
theorem foldl_fcStepV1_eq (gd : Dist) (ref : Coord) (l : List Record) :
    ∀ acc, l.foldl (fcStepV1 gd ref) acc = l.foldl (fcStep gd ref) acc := by
  induction l with
  | nil => intro acc; rfl
  | cons r rs ih =>
    intro acc
    rw [List.foldl_cons, List.foldl_cons, fcStepV1_eq_fcStep]
    exact ih _

theorem find_closest_v1_eq_find_closest (gd : Dist) (records : List Record)
    (ref : Coord) :
    find_closest_v1 gd records ref = find_closest gd records ref := by
  unfold find_closest_v1 find_closest find_closest_c
  by_cases h : records.isEmpty
  · rw [if_pos h, if_pos h]; rfl
  · rw [if_neg h, if_neg h, foldl_fcStepV1_eq]

/-! ### Malformed-coordinate behaviour of the scans -/

theorem withCoords_filter (records : List Record) :
    withCoords (records.filter fun r => (coordOf r.fieldsD).isSome)
      = withCoords records := by
  induction records with
  | nil => rfl
  | cons r rs ih =>
    rcases hc : coordOf r.fieldsD with _ | c
    · rw [withCoords_cons_none r rs hc, ← ih]
      congr 1
      simp [List.filter_cons, hc]
    · rw [withCoords_cons_some r rs c hc, ← ih]
      have hf : (r :: rs).filter (fun r => (coordOf r.fieldsD).isSome)
          = r :: rs.filter fun r => (coordOf r.fieldsD).isSome := by
        simp [List.filter_cons, hc]
      rw [hf, withCoords_cons_some _ _ c hc]

theorem truthyFields_cons_true (r : Record) (rs : List Record)
    (ht : r.fieldsD.geo_point_2d.truthy) :
    truthyFields (r :: rs) = r.fieldsD :: truthyFields rs := by
  unfold truthyFields
  rw [List.filterMap_cons]
  simp [ht]

theorem truthyFields_cons_false (r : Record) (rs : List Record)
    (ht : ¬ r.fieldsD.geo_point_2d.truthy) :
    truthyFields (r :: rs) = truthyFields rs := by
  unfold truthyFields
  rw [List.filterMap_cons]
  simp [ht]

theorem truthyFields_filter (records : List Record) :
    truthyFields (records.filter fun r => r.fieldsD.geo_point_2d.truthy)
      = truthyFields records := by
  induction records with
  | nil => rfl
  | cons r rs ih =>
    by_cases ht : r.fieldsD.geo_point_2d.truthy
    · have hf : (r :: rs).filter (fun r => r.fieldsD.geo_point_2d.truthy)
          = r :: rs.filter fun r => r.fieldsD.geo_point_2d.truthy := by
        simp [List.filter_cons, ht]
      rw [hf, truthyFields_cons_true _ _ ht, truthyFields_cons_true _ _ ht, ih]
    · have hf : (r :: rs).filter (fun r => r.fieldsD.geo_point_2d.truthy)
          = rs.filter fun r => r.fieldsD.geo_point_2d.truthy := by
        simp [List.filter_cons, ht]
      rw [hf, ih, truthyFields_cons_false _ _ ht]

theorem truthyFields_mem {records : List Record} {f : Fields}
    (h : f ∈ truthyFields records) :
    ∃ r ∈ records, r.fieldsD = f ∧ f.geo_point_2d.truthy := by
  unfold truthyFields at h
  rw [List.mem_filterMap] at h
  obtain ⟨r, hr, hmap⟩ := h
  by_cases ht : r.fieldsD.geo_point_2d.truthy
  · simp only [ht, if_true] at hmap
    injection hmap with h1
    exact ⟨r, hr, h1, h1 ▸ ht⟩
  · simp only [ht, if_false] at hmap
    cases hmap

theorem keyed_isSome_of_forall (gd : Dist) (ref : Coord) (l : List Fields)
    (h : ∀ f ∈ l, (parsePoint f.geo_point_2d).isSome) :
    (keyed gd ref l).isSome := by
  induction l with
  | nil => rfl
  | cons f fs ih =>
    have hf := h f (List.mem_cons_self f fs)
    rcases hp : parsePoint f.geo_point_2d with _ | c
    · rw [hp] at hf; cases hf
    · simp only [keyed, hp]
      have hm := ih fun g hg => h g (List.mem_cons_of_mem f hg)
      rcases hk : keyed gd ref fs with _ | kv
      · rw [hk] at hm; cases hm
      · rfl

theorem keyed_some_fst (gd : Dist) (ref : Coord) (l : List Fields)
    (kv : List (Fields × ℚ)) (h : keyed gd ref l = some kv) :
    kv.map Prod.fst = l := by
  induction l generalizing kv with
  | nil =>
    injection h with h1
    rw [← h1]
    rfl
  | cons f fs ih =>
    simp only [keyed] at h
    rcases hp : parsePoint f.geo_point_2d with _ | c
    · rw [hp] at h; cases h
    · rw [hp] at h
      rcases hk : keyed gd ref fs with _ | kv'
      · rw [hk] at h; cases h
      · rw [hk] at h
        injection h with h1
        rw [← h1, List.map_cons, ih kv' hk]

theorem keyed_some_parse (gd : Dist) (ref : Coord) (l : List Fields)
    (kv : List (Fields × ℚ)) (h : keyed gd ref l = some kv) :
    ∀ f ∈ l, (parsePoint f.geo_point_2d).isSome := by
  induction l generalizing kv with
  | nil => intro f hf; cases hf
  | cons f0 fs ih =>
    simp only [keyed] at h
    rcases hp : parsePoint f0.geo_point_2d with _ | c
    · rw [hp] at h; cases h
    · rw [hp] at h
      rcases hk : keyed gd ref fs with _ | kv'
      · rw [hk] at h; cases h
      · intro f hf
        rcases List.mem_cons.mp hf with rfl | hf'
        · rw [hp]; rfl
        · exact ih kv' hk f hf'

theorem sortInsert_mem (key : α → ℚ) (x : α) (l : List α) (y : α)
    (h : y ∈ sortInsert key x l) : y = x ∨ y ∈ l := by
  induction l with
  | nil =>
    simp only [sortInsert] at h
    rcases List.mem_cons.mp h with rfl | h'
    · exact Or.inl rfl
    · cases h'
  | cons z zs ih =>
    simp only [sortInsert] at h
    split at h
    · rcases List.mem_cons.mp h with rfl | h'
      · exact Or.inr (List.mem_cons_self _ _)
      · rcases ih h' with h1 | h2
        · exact Or.inl h1
        · exact Or.inr (List.mem_cons_of_mem z h2)
    · rcases List.mem_cons.mp h with rfl | h'
      · exact Or.inl rfl
      · exact Or.inr h'

theorem sortFold_mem (key : α → ℚ) (l : List α) :
    ∀ acc y, y ∈ l.foldl (fun acc x => sortInsert key x acc) acc →
      y ∈ acc ∨ y ∈ l := by
  induction l with
  | nil => intro acc y h; exact Or.inl h
  | cons x xs ih =>
    intro acc y h
    rw [List.foldl_cons] at h
    rcases ih (sortInsert key x acc) y h with h1 | h2
    · rcases sortInsert_mem key x acc y h1 with rfl | h3
      · exact Or.inr (List.mem_cons_self _ _)
      · exact Or.inl h3
    · exact Or.inr (List.mem_cons_of_mem x h2)

theorem sortByKey_mem (key : α → ℚ) (l : List α) (y : α)
    (h : y ∈ sortByKey key l) : y ∈ l := by
  rcases sortFold_mem key l [] y h with h1 | h2
  · cases h1
  · exact h2

theorem k_closest_some_valid (gd : Dist) (records : List Record) (ref : Coord)
    (k : Nat) (l : List Fields) (h : k_closest gd records ref k = some l) :
    ∀ f ∈ l, f.geo_point_2d.truthy ∧ (parsePoint f.geo_point_2d).isSome ∧
      ∃ r ∈ records, r.fieldsD = f := by
  unfold k_closest at h
  by_cases he : records.isEmpty
  · rw [if_pos he] at h
    injection h with h1
    intro f hf
    rw [← h1] at hf
    cases hf
  · rw [if_neg he] at h
    by_cases hv : (truthyFields records).isEmpty
    · rw [if_pos hv] at h
      injection h with h1
      intro f hf
      rw [← h1] at hf
      cases hf
    · rw [if_neg hv] at h
      rcases hk : keyed gd ref (truthyFields records) with _ | kv
      · rw [hk] at h; cases h
      · rw [hk] at h
        injection h with h1
        intro f hf
        rw [← h1] at hf
        rw [List.mem_map] at hf
        obtain ⟨p, hp, hpf⟩ := hf
        have hp2 : p ∈ sortByKey Prod.snd kv := List.take_subset _ _ hp
        have hp3 : p ∈ kv := sortByKey_mem _ _ _ hp2
        have hfmem : f ∈ truthyFields records := by
          rw [← keyed_some_fst gd ref _ kv hk]
          exact hpf ▸ List.mem_map_of_mem Prod.fst hp3
        obtain ⟨r, hr, hrf, htr⟩ := truthyFields_mem hfmem
        exact ⟨htr, keyed_some_parse gd ref _ kv hk f hfmem, r, hr, hrf⟩

theorem k_closest_isSome (gd : Dist) (records : List Record) (ref : Coord)
    (k : Nat)
    (h : ∀ r ∈ records, r.fieldsD.geo_point_2d.truthy = true →
      (parsePoint r.fieldsD.geo_point_2d).isSome) :
    (k_closest gd records ref k).isSome := by
  unfold k_closest
  by_cases he : records.isEmpty
  · rw [if_pos he]; rfl
  · rw [if_neg he]
    by_cases hv : (truthyFields records).isEmpty
    · rw [if_pos hv]; rfl
    · rw [if_neg hv]
      have hall : ∀ f ∈ truthyFields records,
          (parsePoint f.geo_point_2d).isSome := by
        intro f hf
        obtain ⟨r, hr, hrf, htr⟩ := truthyFields_mem hf
        have := h r hr (by rw [hrf]; exact htr)
        rw [hrf] at this
        exact this
      have hks := keyed_isSome_of_forall gd ref _ hall
      rcases hk : keyed gd ref (truthyFields records) with _ | kv
      · rw [hk] at hks; cases hks
      · rfl

theorem k_closest_filter_eq (gd : Dist) (records : List Record) (ref : Coord)
    (k : Nat) :
    k_closest gd records ref k
      = k_closest gd (records.filter fun r => r.fieldsD.geo_point_2d.truthy)
          ref k := by
  unfold k_closest
  rw [truthyFields_filter]
  by_cases he : records.isEmpty
  · have h0 : records = [] := List.isEmpty_iff.mp he
    subst h0
    rfl
  · rw [if_neg he]
    by_cases hv : (truthyFields records).isEmpty
    · rw [if_pos hv]
      by_cases hfe : (records.filter fun r => r.fieldsD.geo_point_2d.truthy).isEmpty
      · rw [if_pos hfe]
      · rw [if_neg hfe]
    · have hfe : ¬ (records.filter
          fun r => r.fieldsD.geo_point_2d.truthy).isEmpty := by
        intro hcon
        apply hv
        have h0 : (records.filter fun r => r.fieldsD.geo_point_2d.truthy) = [] :=
          List.isEmpty_iff.mp hcon
        rw [← truthyFields_filter records, h0]
        rfl
      rw [if_neg hv, if_neg hfe]

/-- C2 counterexample: a record whose coordinate is present (truthy) but
malformed is not merely excluded by `k_closest` — the `nsmallest` key raises
(there is no `try/except` in `k_closest`), modelled by the result `none`,
instead of the exclusion result `some []` the claim requires. -/
theorem k_closest_malformed_raises :
    k_closest wGd [wRecBad] (0, 0) 20 = none ∧
      k_closest wGd [wRecBad] (0, 0) 20 ≠ some [] := by
  have h1 : k_closest wGd [wRecBad] (0, 0) 20 = none := rfl
  exact ⟨h1, fun hcon => Option.noConfusion (h1.symm.trans hcon)⟩

/-- C2 (amended): `find_closest` never raises on malformed coordinates and
returns exactly what it returns on the list with the malformed and
coordinate-less records removed; `k_closest` likewise excludes records whose
coordinate is absent or falsy, and completes without raising whenever every
truthy coordinate in the list is well-formed.  (As the counterexample shows,
a truthy malformed coordinate makes `k_closest` itself raise, so the original
claim holds for `find_closest` but only in this weakened form for
`k_closest`.) -/
theorem skip_malformed_records :
    (∀ (gd : Dist) (records : List Record) (ref : Coord),
        find_closest gd records ref
          = find_closest gd
              (records.filter fun r => (coordOf r.fieldsD).isSome) ref) ∧
    (∀ (gd : Dist) (records : List Record) (ref : Coord) (k : Nat),
        k_closest gd records ref k
          = k_closest gd
              (records.filter fun r => r.fieldsD.geo_point_2d.truthy) ref k) ∧
    (∀ (gd : Dist) (records : List Record) (ref : Coord) (k : Nat),
        (∀ r ∈ records, r.fieldsD.geo_point_2d.truthy = true →
          (parsePoint r.fieldsD.geo_point_2d).isSome) →
        (k_closest gd records ref k).isSome) := by
  refine ⟨?_, ?_, ?_⟩
  · intro gd records ref
    unfold find_closest
    rw [find_closest_c_eq, find_closest_c_eq, withCoords_filter]
  · intro gd records ref k
    exact k_closest_filter_eq gd records ref k
  · intro gd records ref k h
    exact k_closest_isSome gd records ref k h

/-- Witness for C2 (amended) at a concrete input: on a list whose truthy
coordinates are all well-formed, `k_closest` completes. -/
theorem skip_malformed_records_witness :
    (k_closest wGd [wRecFar, wRecNear, wRecNone] (0, 0) 20).isSome :=
  skip_malformed_records.2.2 wGd [wRecFar, wRecNear, wRecNone] (0, 0) 20
    (by decide)

/-! ### Traffic penalty lemmas -/

theorem scanPts_true_any (gd : Dist) (radius : ℚ) (tc : Option Coord)
    (sub : List PtVal) (h : scanPts gd radius tc sub = some true) :
    ∃ c, tc = some c ∧ sub.any (ptHit gd radius c) = true := by
  induction sub with
  | nil => simp [scanPts] at h
  | cons p ps ih =>
    cases p with
    | bad => simp [scanPts] at h
    | ok lon lat =>
      cases tc with
      | none => simp [scanPts] at h
      | some c =>
        simp only [scanPts] at h
        by_cases hlt : gd (lat, lon) c < radius
        · refine ⟨c, rfl, ?_⟩
          simp [List.any_cons, ptHit, hlt]
        · rw [if_neg hlt] at h
          obtain ⟨c', hc', hany⟩ := ih h
          injection hc' with hc2
          rw [← hc2] at hany
          refine ⟨c, rfl, ?_⟩
          simp [List.any_cons, hany]

theorem scanPts_no_bad (gd : Dist) (radius : ℚ) (c : Coord)
    (sub : List PtVal) (h : ∀ p ∈ sub, ¬ p.isBad = true) :
    scanPts gd radius (some c) sub = some (sub.any (ptHit gd radius c)) := by
  induction sub with
  | nil => rfl
  | cons p ps ih =>
    cases p with
    | bad =>
      have := h .bad (List.mem_cons_self _ _)
      simp [PtVal.isBad] at this
    | ok lon lat =>
      simp only [scanPts]
      by_cases hlt : gd (lat, lon) c < radius
      · rw [if_pos hlt]
        simp [List.any_cons, ptHit, hlt]
      · rw [if_neg hlt, ih fun q hq => h q (List.mem_cons_of_mem _ hq)]
        simp [List.any_cons, ptHit, hlt]

theorem matchedIntensity_some_num (gd : Dist) (radius : ℚ) (sub : List PtVal)
    (r : Record) (q : ℚ) (h : matchedIntensity gd radius sub r = some q) :
    r.fieldsD.intensidad = IntenVal.num q := by
  simp only [matchedIntensity] at h
  by_cases ht : r.fieldsD.geo_point_2d.truthy
  · rw [if_pos ht] at h
    rcases hi : r.fieldsD.intensidad with _ | _ | _ | q0
    · simp only [hi] at h; cases h
    · simp only [hi] at h; cases h
    · simp only [hi] at h; cases h
    · simp only [hi] at h
      rcases hp : parsePoint r.fieldsD.geo_point_2d with _ | c
      · simp only [hp] at h; cases h
      · simp only [hp] at h
        by_cases hany : sub.any (ptHit gd radius c) = true
        · rw [if_pos hany] at h
          injection h with h1
          rw [h1]
        · rw [if_neg hany] at h; cases h
  · rw [if_neg ht] at h; cases h

theorem trafficStep_wf (gd : Dist) (radius : ℚ) (sub : List PtVal)
    (hsub : ∀ p ∈ sub, ¬ p.isBad = true) (ints : List ℚ) (r : Record)
    (hr : wfTrafficRec r.fieldsD = true) :
    trafficStep gd radius sub (some ints) r
      = some (ints ++ (matchedIntensity gd radius sub r).toList) := by
  simp only [trafficStep, matchedIntensity]
  by_cases ht : r.fieldsD.geo_point_2d.truthy
  · rw [if_pos ht, if_pos ht]
    rcases hi : r.fieldsD.intensidad with _ | _ | _ | q
    · simp
    · simp
    · simp only [wfTrafficRec, hi] at hr; cases hr
    · rcases hp : parsePoint r.fieldsD.geo_point_2d with _ | c
      · simp only [wfTrafficRec, hi, hp, ht] at hr
        simp at hr
      · rw [scanPts_no_bad gd radius c sub hsub]
        by_cases hany : sub.any (ptHit gd radius c) = true
        · simp [hany]
        · simp [hany]
  · rw [if_neg ht, if_neg ht]
    simp

theorem trafficFold_none (gd : Dist) (radius : ℚ) (sub : List PtVal)
    (traffic : List Record) :
    traffic.foldl (trafficStep gd radius sub) none = none := by
  induction traffic with
  | nil => rfl
  | cons r rs ih => rw [List.foldl_cons]; exact ih

theorem trafficFold_wf (gd : Dist) (radius : ℚ) (sub : List PtVal)
    (hsub : ∀ p ∈ sub, ¬ p.isBad = true) (traffic : List Record)
    (hwf : ∀ r ∈ traffic, wfTrafficRec r.fieldsD = true) :
    ∀ ints, traffic.foldl (trafficStep gd radius sub) (some ints)
      = some (ints ++ traffic.filterMap (matchedIntensity gd radius sub)) := by
  induction traffic with
  | nil => intro ints; simp
  | cons r rs ih =>
    intro ints
    rw [List.foldl_cons,
      trafficStep_wf gd radius sub hsub ints r (hwf r (List.mem_cons_self _ _)),
      ih (fun g hg => hwf g (List.mem_cons_of_mem r hg)), List.filterMap_cons]
    cases hm : matchedIntensity gd radius sub r
    · simp [hm]
    · simp [hm]

theorem trafficStep_some (gd : Dist) (radius : ℚ) (sub : List PtVal)
    (acc : List ℚ) (r : Record) (acc' : List ℚ)
    (h : trafficStep gd radius sub (some acc) r = some acc') :
    ∀ q ∈ acc', q ∈ acc ∨ matchedIntensity gd radius sub r = some q := by
  simp only [trafficStep] at h
  by_cases ht : r.fieldsD.geo_point_2d.truthy
  · rw [if_pos ht] at h
    rcases hi : r.fieldsD.intensidad with _ | _ | _ | q0
    · simp only [hi] at h
      injection h with h1; subst h1; exact fun q hq => Or.inl hq
    · simp only [hi] at h
      injection h with h1; subst h1; exact fun q hq => Or.inl hq
    · simp only [hi] at h; cases h
    · simp only [hi] at h
      rcases hs : scanPts gd radius (parsePoint r.fieldsD.geo_point_2d) sub
        with _ | b
      · simp only [hs] at h; cases h
      · simp only [hs] at h
        cases b with
        | false => injection h with h1; subst h1; exact fun q hq => Or.inl hq
        | true =>
          injection h with h1
          subst h1
          intro q hq
          rcases List.mem_append.mp hq with hq1 | hq2
          · exact Or.inl hq1
          · have hq0 : q = q0 := List.mem_singleton.mp hq2
            subst hq0
            obtain ⟨c, hc, hany⟩ := scanPts_true_any gd radius _ sub hs
            refine Or.inr ?_
            simp [matchedIntensity, ht, hi, hc, hany]
  · rw [if_neg ht] at h
    injection h with h1
    subst h1
    exact fun q hq => Or.inl hq

theorem trafficFold_sound (gd : Dist) (radius : ℚ) (sub : List PtVal)
    (traffic : List Record) :
    ∀ acc ints,
      traffic.foldl (trafficStep gd radius sub) (some acc) = some ints →
      ∀ q ∈ ints, q ∈ acc ∨
        ∃ r ∈ traffic, matchedIntensity gd radius sub r = some q := by
  induction traffic with
  | nil =>
    intro acc ints h q hq
    injection h with h1
    subst h1
    exact Or.inl hq
  | cons r rs ih =>
    intro acc ints h q hq
    rw [List.foldl_cons] at h
    rcases hstep : trafficStep gd radius sub (some acc) r with _ | acc'
    · rw [hstep, trafficFold_none] at h; cases h
    · rw [hstep] at h
      rcases ih acc' ints h q hq with hin | ⟨r', hr', hm⟩
      · rcases trafficStep_some gd radius sub acc r acc' hstep q hin with h1 | h2
        · exact Or.inl h1
        · exact Or.inr ⟨r, List.mem_cons_self _ _, h2⟩
      · exact Or.inr ⟨r', List.mem_cons_of_mem r hr', hm⟩

theorem traffic_penalty_zero_of_no_match (gd : Dist) (leg : Leg)
    (traffic : List Record) (radius : ℚ)
    (hnone : ∀ r ∈ traffic,
      matchedIntensity gd radius (everyNth 5 leg.pts) r = none) :
    traffic_penalty_seconds gd (.geom leg) traffic radius = 0 := by
  simp only [traffic_penalty_seconds]
  rcases hfold : traffic.foldl
      (trafficStep gd radius (everyNth 5 leg.pts)) (some []) with _ | ints
  · rfl
  · cases ints with
    | nil => rfl
    | cons q qs =>
      exfalso
      rcases trafficFold_sound gd radius (everyNth 5 leg.pts) traffic []
          (q :: qs) hfold q (List.mem_cons_self _ _) with h1 | ⟨r, hr, hm⟩
      · cases h1
      · rw [hnone r hr] at hm; cases hm

theorem traffic_penalty_eq_mean (gd : Dist) (leg : Leg)
    (traffic : List Record) (radius : ℚ)
    (hpts : noBadPts leg.pts = true)
    (hwf : ∀ r ∈ traffic, wfTrafficRec r.fieldsD = true)
    (hne : matchedIntensities gd radius (everyNth 5 leg.pts) traffic ≠ []) :
    traffic_penalty_seconds gd (.geom leg) traffic radius
      = (matchedIntensities gd radius (everyNth 5 leg.pts) traffic).sum
          / ((matchedIntensities gd radius (everyNth 5 leg.pts) traffic).length : ℚ)
          / 100 * 60 := by
  have hsub : ∀ p ∈ everyNth 5 leg.pts, ¬ p.isBad = true := by
    have hall : ∀ x ∈ everyNth 5 leg.pts, x.isBad = false := by
      simpa [noBadPts] using hpts
    intro p hp
    simp [hall p hp]
  simp only [traffic_penalty_seconds]
  rw [trafficFold_wf gd radius (everyNth 5 leg.pts) hsub traffic hwf []]
  have hmi : ([] : List ℚ) ++ traffic.filterMap
      (matchedIntensity gd radius (everyNth 5 leg.pts))
      = matchedIntensities gd radius (everyNth 5 leg.pts) traffic := by
    simp [matchedIntensities]
  rw [hmi]
  rcases hm : matchedIntensities gd radius (everyNth 5 leg.pts) traffic
      with _ | ⟨m, ms⟩
  · exact absurd hm hne
  · rfl

/-- C4 counterexample: a traffic record with a truthy malformed coordinate
and numeric intensity poisons the whole penalty to 0, even though another
record with a valid coordinate and numeric intensity 200 is matched within
50 m of a subsampled path point — the claim demands (200/100)*60 = 120
there. -/
theorem traffic_penalty_poisoned_ce :
    traffic_penalty_seconds wGd (.geom wLegD) [wTrafficGood, wTrafficPoison]
        50 = 0 ∧
      matchedIntensity wGd 50 (everyNth 5 wLegD.pts) wTrafficGood = some 200 ∧
      (0 : ℚ) ≠ 200 / 100 * 60 := by
  refine ⟨?_, ?_, by norm_num⟩
  · norm_num [traffic_penalty_seconds, trafficStep, scanPts, everyNth,
      everyNthAux, parsePoint, GeoVal.truthy, Record.fieldsD, wGd,
      wTrafficGood, wTrafficPoison, wLegD]
  · norm_num [matchedIntensity, ptHit, everyNth, everyNthAux, parsePoint,
      GeoVal.truthy, Record.fieldsD, wGd, wTrafficGood, wLegD, List.any_cons]

/-- C4 (amended): (i) the penalty is 0 whenever no traffic record with a
valid coordinate and numeric intensity lies within the radius of a subsampled
path point (every 5th coordinate) — with no well-formedness caveat; (ii)
when the sampled path points unpack and every traffic record is well-formed,
a non-empty match set gives penalty = (mean of matched intensities / 100) *
60; (iii) in Car/StreetParking mode with base driving duration 600 s and
matched mean intensity 200, the notice reports total 720 s and penalty 120 s.
(The original claim's unconditional "otherwise" clause fails in the presence
of a malformed traffic record, which poisons the penalty to 0 — see the
counterexample.) -/
theorem traffic_penalty_spec :
    (∀ (gd : Dist) (leg : Leg) (traffic : List Record) (radius : ℚ),
      (∀ r ∈ traffic,
        matchedIntensity gd radius (everyNth 5 leg.pts) r = none) →
      traffic_penalty_seconds gd (.geom leg) traffic radius = 0) ∧
    (∀ (gd : Dist) (leg : Leg) (traffic : List Record) (radius : ℚ),
      noBadPts leg.pts = true →
      (∀ r ∈ traffic, wfTrafficRec r.fieldsD = true) →
      matchedIntensities gd radius (everyNth 5 leg.pts) traffic ≠ [] →
      traffic_penalty_seconds gd (.geom leg) traffic radius
        = (matchedIntensities gd radius (everyNth 5 leg.pts) traffic).sum
            / ((matchedIntensities gd radius (everyNth 5 leg.pts)
                traffic).length : ℚ) / 100 * 60) ∧
    (∀ (gd : Dist) (prov : Provider)
      (parkings bikes traffic buses : List Record) (start_ end_ : Coord)
      (r : Leg),
      prov [Prod.swap start_, Prod.swap end_] "driving-car" = some r →
      r.duration = 600 →
      noBadPts r.pts = true →
      (∀ rec ∈ traffic, wfTrafficRec rec.fieldsD = true) →
      (matchedIntensities gd 50 (everyNth 5 r.pts) traffic).sum
        = 200 * ((matchedIntensities gd 50 (everyNth 5 r.pts)
            traffic).length : ℚ) →
      matchedIntensities gd 50 (everyNth 5 r.pts) traffic ≠ [] →
      (get_route_data gd prov parkings bikes traffic buses "Car"
          (some "Street parking") start_ end_).1.notice
        = Notice.driveTotal 720 120) := by
  refine ⟨traffic_penalty_zero_of_no_match, traffic_penalty_eq_mean, ?_⟩
  intro gd prov parkings bikes traffic buses start_ end_ r hprov hdur hpts
    hwf hsum hne
  have hp120 : traffic_penalty_seconds gd (.geom r) traffic 50 = 120 := by
    rw [traffic_penalty_eq_mean gd r traffic 50 hpts hwf hne, hsum]
    have hlen0 : ((matchedIntensities gd 50 (everyNth 5 r.pts)
        traffic).length : ℚ) ≠ 0 := by
      have hpos := List.length_pos.mpr hne
      exact Nat.cast_ne_zero.mpr (Nat.pos_iff_ne_zero.mp hpos)
    have hdiv : 200 * ((matchedIntensities gd 50 (everyNth 5 r.pts)
        traffic).length : ℚ)
        / ((matchedIntensities gd 50 (everyNth 5 r.pts) traffic).length : ℚ)
        = 200 := by
      field_simp
    rw [hdiv]
    norm_num
  have hred : get_route_data gd prov parkings bikes traffic buses "Car"
      (some "Street parking") start_ end_
      = carStreetBranch gd prov traffic start_ end_ := rfl
  rw [hred]
  simp only [carStreetBranch]
  simp only [hprov]
  rw [hp120, hdur]
  norm_num

/-- Witness for C4 (amended), part (iii) at concrete inputs: provider answers
the drive with a 600 s leg through (0,0), one matched traffic record of
intensity 200, reported notice is total 720 s / penalty 120 s. -/
theorem traffic_penalty_spec_witness :
    (get_route_data wGd wProvAll [] [] [wTrafficGood] [] "Car"
        (some "Street parking") (0, 0) (0, 10)).1.notice
      = Notice.driveTotal 720 120 := by
  have hm : matchedIntensities wGd 50 (everyNth 5 wLegD.pts) [wTrafficGood]
      = [200] := by
    norm_num [matchedIntensities, matchedIntensity, ptHit, everyNth,
      everyNthAux, parsePoint, GeoVal.truthy, Record.fieldsD, wGd,
      wTrafficGood, wLegD, List.any_cons, List.filterMap_cons,
      List.filterMap_nil]
  exact traffic_penalty_spec.2.2 wGd wProvAll [] [] [wTrafficGood] []
    (0, 0) (0, 10) wLegD rfl rfl (by decide) (by decide)
    (by rw [hm]; norm_num) (by rw [hm]; exact List.cons_ne_nil _ _)

/-- C5 counterexample: on a matched traffic record with numeric intensity
-100 the penalty evaluates to -60 seconds, which is not ≥ 0 (and not a
raised exception either — the function totalizes to a plain number). -/
theorem traffic_penalty_negative_ce :
    traffic_penalty_seconds wGd (.geom wLegD) [wTrafficNeg] 50 = -60 ∧
      ¬ 0 ≤ traffic_penalty_seconds wGd (.geom wLegD) [wTrafficNeg] 50 := by
  have h : traffic_penalty_seconds wGd (.geom wLegD) [wTrafficNeg] 50
      = -60 := by
    norm_num [traffic_penalty_seconds, trafficStep, scanPts, everyNth,
      everyNthAux, parsePoint, GeoVal.truthy, Record.fieldsD, wGd,
      wTrafficNeg, wLegD]
  refine ⟨h, ?_⟩
  rw [h]
  norm_num

/-- C5 (amended): the penalty estimator never raises (every exception path is
caught and totalizes to 0 — the embedding is a total function, and the
`Optimal_Route_Planner.py` variant agrees with it on every input), and its
result is ≥ 0 provided every numeric intensity among the traffic records is
nonnegative.  (Unconditional nonnegativity fails: a matched negative
intensity produces a negative penalty — see the counterexample.) -/
theorem traffic_penalty_safe :
    (∀ (gd : Dist) (rj : RouteJson) (traffic : List Record) (radius : ℚ),
        (∀ r ∈ traffic, intenNonneg r.fieldsD.intensidad = true) →
        0 ≤ traffic_penalty_seconds gd rj traffic radius) ∧
    (∀ (gd : Dist) (rj : RouteJson) (traffic : List Record) (radius : ℚ),
        traffic_penalty_seconds_v1 gd rj traffic radius
          = traffic_penalty_seconds gd rj traffic radius) := by
  constructor
  · intro gd rj traffic radius hnn
    cases rj with
    | falsy => exact le_refl 0
    | noFeatures => exact le_refl 0
    | badGeom => exact le_refl 0
    | geom leg =>
      simp only [traffic_penalty_seconds]
      rcases hfold : traffic.foldl
          (trafficStep gd radius (everyNth 5 leg.pts)) (some []) with _ | ints
      · exact le_refl 0
      · cases ints with
        | nil => exact le_refl 0
        | cons q qs =>
          have hall : ∀ x ∈ q :: qs, (0:ℚ) ≤ x := by
            intro x hx
            rcases trafficFold_sound gd radius (everyNth 5 leg.pts) traffic
                [] (q :: qs) hfold x hx with h1 | ⟨r, hr, hm⟩
            · cases h1
            · have hnum := matchedIntensity_some_num gd radius _ r x hm
              have hcheck := hnn r hr
              rw [hnum] at hcheck
              simpa [intenNonneg] using hcheck
          have hsum : (0:ℚ) ≤ (q :: qs).sum := List.sum_nonneg hall
          have hlen : (0:ℚ) ≤ (((q :: qs).length : ℕ) : ℚ) := by positivity
          exact mul_nonneg (div_nonneg (div_nonneg hsum hlen) (by norm_num))
            (by norm_num)
  · intro gd rj traffic radius
    cases rj with
    | falsy => rfl
    | noFeatures => rfl
    | badGeom => rfl
    | geom leg =>
      by_cases ht : traffic.isEmpty
      · have h0 : traffic = [] := List.isEmpty_iff.mp ht
        subst h0
        rfl
      · simp only [traffic_penalty_seconds_v1, traffic_penalty_seconds,
          if_neg ht]

/-- Witness for C5 (amended): with a nonnegative-intensity traffic set the
penalty is ≥ 0. -/
theorem traffic_penalty_safe_witness :
    0 ≤ traffic_penalty_seconds wGd (.geom wLegD) [wTrafficGood] 50 :=
  traffic_penalty_safe.1 wGd (.geom wLegD) [wTrafficGood] 50 (by decide)

/-! ### Bus pairing selector -/

theorem selMin_append (score : α → ℚ) (acc : Option α) (l1 l2 : List α) :
    selMin score acc (l1 ++ l2) = selMin score (selMin score acc l1) l2 := by
  simp [selMin, List.foldl_append]

theorem pairOf_props (gd : Dist) (start_ end_ : Coord) (a b : Fields)
    (sel : BusSel) (h : pairOf gd start_ end_ a b = some sel) :
    sel.s = a ∧ sel.e = b ∧ commonLines a b ≠ [] ∧
      parsePoint a.geo_point_2d = some sel.sc ∧
      parsePoint b.geo_point_2d = some sel.ec ∧
      sel.score = gd start_ sel.sc + gd end_ sel.ec := by
  simp only [pairOf] at h
  rcases hcl : commonLines a b with _ | ⟨l0, ls⟩
  · simp only [hcl] at h; cases h
  · simp only [hcl] at h
    rcases hpa : parsePoint a.geo_point_2d with _ | sc
    · simp only [hpa] at h; cases h
    · rcases hpb : parsePoint b.geo_point_2d with _ | ec
      · simp only [hpa, hpb] at h; cases h
      · simp only [hpa, hpb] at h
        injection h with h1
        subst h1
        exact ⟨rfl, rfl, List.cons_ne_nil _ _, rfl, rfl, rfl⟩

theorem pairOf_none_iff (gd : Dist) (start_ end_ : Coord) (a b : Fields)
    (ha : (parsePoint a.geo_point_2d).isSome)
    (hb : (parsePoint b.geo_point_2d).isSome) :
    pairOf gd start_ end_ a b = none ↔ commonLines a b = [] := by
  obtain ⟨sc, hsc⟩ := Option.isSome_iff_exists.mp ha
  obtain ⟨ec, hec⟩ := Option.isSome_iff_exists.mp hb
  rcases hcl : commonLines a b with _ | ⟨l0, ls⟩
  · simp [pairOf, hcl]
  · simp [pairOf, hcl, hsc, hec]

theorem busFoldB_none (gd : Dist) (start_ end_ : Coord) (s : Fields)
    (B : List Fields) :
    B.foldl (busPairStep gd start_ end_ s) none = none := by
  induction B with
  | nil => rfl
  | cons b bs ih => rw [List.foldl_cons]; exact ih

theorem busPairStep_some_inv (gd : Dist) (start_ end_ : Coord) (s : Fields)
    (acc : Option (Option BusSel)) (b : Fields) (sel : BusSel)
    (h : busPairStep gd start_ end_ s acc b = some (some sel)) :
    acc = some (some sel) ∨ pairOf gd start_ end_ s b = some sel := by
  rcases acc with _ | st
  · cases h
  · rcases st with _ | bst
    · simp only [busPairStep] at h
      rcases hcl : commonLines s b with _ | ⟨l0, ls⟩
      · simp only [hcl] at h
        injection h with h1
        cases h1
      · simp only [hcl] at h
        rcases hpa : parsePoint s.geo_point_2d with _ | sc
        · simp only [hpa] at h; cases h
        · rcases hpb : parsePoint b.geo_point_2d with _ | ec
          · simp only [hpa, hpb] at h; cases h
          · simp only [hpa, hpb] at h
            injection h with h1
            injection h1 with h2
            refine Or.inr ?_
            simp only [pairOf, hcl, hpa, hpb]
            rw [h2]
    · simp only [busPairStep] at h
      rcases hcl : commonLines s b with _ | ⟨l0, ls⟩
      · simp only [hcl] at h
        injection h with h1
        exact Or.inl (by rw [h1])
      · simp only [hcl] at h
        rcases hpa : parsePoint s.geo_point_2d with _ | sc
        · simp only [hpa] at h; cases h
        · rcases hpb : parsePoint b.geo_point_2d with _ | ec
          · simp only [hpa, hpb] at h; cases h
          · simp only [hpa, hpb] at h
            by_cases hlt : gd start_ sc + gd end_ ec < bst.score
            · rw [if_pos hlt] at h
              injection h with h1
              injection h1 with h2
              refine Or.inr ?_
              simp only [pairOf, hcl, hpa, hpb]
              rw [h2]
            · rw [if_neg hlt] at h
              injection h with h1
              injection h1 with h2
              exact Or.inl (by rw [h2])

theorem busFoldB_some_inv (gd : Dist) (start_ end_ : Coord) (s : Fields)
    (B : List Fields) :
    ∀ acc sel, B.foldl (busPairStep gd start_ end_ s) acc = some (some sel) →
      acc = some (some sel) ∨
        ∃ b ∈ B, pairOf gd start_ end_ s b = some sel := by
  induction B with
  | nil => intro acc sel h; exact Or.inl h
  | cons b bs ih =>
    intro acc sel h
    rw [List.foldl_cons] at h
    rcases ih _ sel h with h1 | ⟨b', hb', hp⟩
    · rcases busPairStep_some_inv gd start_ end_ s acc b sel h1 with h2 | h3
      · exact Or.inl h2
      · exact Or.inr ⟨b, List.mem_cons_self _ _, h3⟩
    · exact Or.inr ⟨b', List.mem_cons_of_mem b hb', hp⟩

theorem busFoldA_some_inv (gd : Dist) (start_ end_ : Coord)
    (B : List Fields) (A : List Fields) :
    ∀ acc sel,
      A.foldl (fun acc s => B.foldl (busPairStep gd start_ end_ s) acc) acc
        = some (some sel) →
      acc = some (some sel) ∨
        ∃ a ∈ A, ∃ b ∈ B, pairOf gd start_ end_ a b = some sel := by
  induction A with
  | nil => intro acc sel h; exact Or.inl h
  | cons a as ih =>
    intro acc sel h
    rw [List.foldl_cons] at h
    rcases ih _ sel h with h1 | ⟨a', ha', hrest⟩
    · rcases busFoldB_some_inv gd start_ end_ a B acc sel h1 with h2 | ⟨b, hb, hp⟩
      · exact Or.inl h2
      · exact Or.inr ⟨a, List.mem_cons_self _ _, b, hb, hp⟩
    · exact Or.inr ⟨a', List.mem_cons_of_mem a ha', hrest⟩

theorem busBestPair_some_inv (gd : Dist) (start_ end_ : Coord)
    (A B : List Fields) (sel : BusSel)
    (h : busBestPair gd start_ end_ A B = some (some sel)) :
    ∃ a ∈ A, ∃ b ∈ B, pairOf gd start_ end_ a b = some sel := by
  rcases busFoldA_some_inv gd start_ end_ B A (some none) sel h with h1 | h2
  · injection h1 with h2; cases h2
  · exact h2

theorem busFoldB_eq (gd : Dist) (start_ end_ : Coord) (a : Fields)
    (ha : (parsePoint a.geo_point_2d).isSome) (B : List Fields)
    (hB : ∀ b ∈ B, (parsePoint b.geo_point_2d).isSome) :
    ∀ st, B.foldl (busPairStep gd start_ end_ a) (some st)
      = some (selMin BusSel.score st
          (B.filterMap fun b => pairOf gd start_ end_ a b)) := by
  induction B with
  | nil => intro st; rfl
  | cons b bs ih =>
    intro st
    have hbs : ∀ x ∈ bs, (parsePoint x.geo_point_2d).isSome :=
      fun x hx => hB x (List.mem_cons_of_mem b hx)
    rw [List.foldl_cons, List.filterMap_cons]
    rcases hcl : commonLines a b with _ | ⟨l0, ls⟩
    · have hstep : busPairStep gd start_ end_ a (some st) b = some st := by
        simp only [busPairStep, hcl]
      have hpo : pairOf gd start_ end_ a b = none := by
        simp only [pairOf, hcl]
      rw [hstep]
      simp only [hpo]
      exact ih hbs st
    · obtain ⟨asc, hasc⟩ := Option.isSome_iff_exists.mp ha
      obtain ⟨sc, hsc⟩ :=
        Option.isSome_iff_exists.mp (hB b (List.mem_cons_self _ _))
      have hpo : pairOf gd start_ end_ a b
          = some ⟨a, asc, b, sc, l0, gd start_ asc + gd end_ sc⟩ := by
        simp only [pairOf, hcl, hasc, hsc]
      have hstep : busPairStep gd start_ end_ a (some st) b
          = some (selMinStep BusSel.score st
              ⟨a, asc, b, sc, l0, gd start_ asc + gd end_ sc⟩) := by
        simp only [busPairStep, hcl, hasc, hsc, selMinStep]
        rcases st with _ | bst
        · rfl
        · by_cases hlt : gd start_ asc + gd end_ sc < bst.score
          · simp [hlt]
          · simp [hlt]
      rw [hstep]
      simp only [hpo]
      rw [selMin_cons]
      exact ih hbs _

theorem busBestPair_eq (gd : Dist) (start_ end_ : Coord) (A B : List Fields)
    (hA : ∀ a ∈ A, (parsePoint a.geo_point_2d).isSome)
    (hB : ∀ b ∈ B, (parsePoint b.geo_point_2d).isSome) :
    busBestPair gd start_ end_ A B
      = some (selMin BusSel.score none (pairsList gd start_ end_ A B)) := by
  unfold busBestPair
  suffices hgen : ∀ (A' : List Fields), (∀ a ∈ A', (parsePoint a.geo_point_2d).isSome) →
      ∀ st, A'.foldl (fun acc s => B.foldl (busPairStep gd start_ end_ s) acc)
          (some st)
        = some (selMin BusSel.score st (pairsList gd start_ end_ A' B)) by
    exact hgen A hA none
  intro A'
  induction A' with
  | nil => intro _ st; rfl
  | cons a as ih =>
    intro hA' st
    rw [List.foldl_cons,
      busFoldB_eq gd start_ end_ a (hA' a (List.mem_cons_self _ _)) B hB st,
      ih (fun x hx => hA' x (List.mem_cons_of_mem a hx)) _]
    congr 1
    rw [show pairsList gd start_ end_ (a :: as) B
        = (B.filterMap fun b => pairOf gd start_ end_ a b)
            ++ pairsList gd start_ end_ as B from by
      simp [pairsList, List.flatMap_cons], selMin_append]

/-- C3: given the k=20 candidate stop sets near start and end (as produced by
`k_closest`), the bus pairing loop (i) completes without raising, (ii)
reports no-connection exactly when no candidate pair shares a line, (iii) on
success selects a sharing pair whose walking score
`geodesic(start, a) + geodesic(end, b)` is minimal among all sharing pairs,
and (iv) when exactly one pair shares a line, that pair is selected
regardless of its score. -/
theorem bus_pairing_selector (gd : Dist) (buses : List Record)
    (start_ end_ : Coord) (A B : List Fields)
    (hA : k_closest gd buses start_ 20 = some A)
    (hB : k_closest gd buses end_ 20 = some B) :
    (busBestPair gd start_ end_ A B ≠ none) ∧
    (busBestPair gd start_ end_ A B = some none ↔
      ∀ a ∈ A, ∀ b ∈ B, commonLines a b = []) ∧
    (∀ sel, busBestPair gd start_ end_ A B = some (some sel) →
      sel.s ∈ A ∧ sel.e ∈ B ∧ commonLines sel.s sel.e ≠ [] ∧
      parsePoint sel.s.geo_point_2d = some sel.sc ∧
      parsePoint sel.e.geo_point_2d = some sel.ec ∧
      sel.score = gd start_ sel.sc + gd end_ sel.ec ∧
      ∀ a ∈ A, ∀ b ∈ B, ∀ ca cb,
        parsePoint a.geo_point_2d = some ca →
        parsePoint b.geo_point_2d = some cb →
        commonLines a b ≠ [] →
        sel.score ≤ gd start_ ca + gd end_ cb) ∧
    (∀ a0 b0, a0 ∈ A → b0 ∈ B → commonLines a0 b0 ≠ [] →
      (∀ a ∈ A, ∀ b ∈ B, commonLines a b ≠ [] → a = a0 ∧ b = b0) →
      ∃ sel, busBestPair gd start_ end_ A B = some (some sel) ∧
        sel.s = a0 ∧ sel.e = b0) := by
  have hAv : ∀ a ∈ A, (parsePoint a.geo_point_2d).isSome :=
    fun a ha => (k_closest_some_valid gd buses start_ 20 A hA a ha).2.1
  have hBv : ∀ b ∈ B, (parsePoint b.geo_point_2d).isSome :=
    fun b hb => (k_closest_some_valid gd buses end_ 20 B hB b hb).2.1
  have heq := busBestPair_eq gd start_ end_ A B hAv hBv
  have hLmem : ∀ sel ∈ pairsList gd start_ end_ A B,
      ∃ a ∈ A, ∃ b ∈ B, pairOf gd start_ end_ a b = some sel := by
    intro sel hsel
    obtain ⟨a, ha, hsel2⟩ := List.mem_flatMap.mp hsel
    obtain ⟨b, hb, hp⟩ := List.mem_filterMap.mp hsel2
    exact ⟨a, ha, b, hb, hp⟩
  refine ⟨?_, ?_, ?_, ?_⟩
  · rw [heq]
    intro hcon
    cases hcon
  · rw [heq]
    constructor
    · intro h
      injection h with h1
      have hnil := (selMin_none_iff BusSel.score _).mp h1
      intro a ha b hb
      by_contra hne
      rcases hclab : commonLines a b with _ | ⟨l0, ls⟩
      · exact hne hclab
      · obtain ⟨ca, hca⟩ := Option.isSome_iff_exists.mp (hAv a ha)
        obtain ⟨cb, hcb⟩ := Option.isSome_iff_exists.mp (hBv b hb)
        have hpo : pairOf gd start_ end_ a b
            = some ⟨a, ca, b, cb, l0, gd start_ ca + gd end_ cb⟩ := by
          simp only [pairOf, hclab, hca, hcb]
        have hmem : (⟨a, ca, b, cb, l0, gd start_ ca + gd end_ cb⟩ : BusSel)
            ∈ pairsList gd start_ end_ A B := by
          refine List.mem_flatMap.mpr ⟨a, ha, ?_⟩
          exact List.mem_filterMap.mpr ⟨b, hb, hpo⟩
        rw [hnil] at hmem
        cases hmem
    · intro h
      have hnil : pairsList gd start_ end_ A B = [] := by
        rw [pairsList, List.flatMap_eq_nil_iff]
        intro a ha
        rw [List.filterMap_eq_nil_iff]
        intro b hb
        exact (pairOf_none_iff gd start_ end_ a b (hAv a ha)
          (hBv b hb)).mpr (h a ha b hb)
      rw [hnil]
      rfl
  · intro sel hsel
    obtain ⟨a, ha, b, hb, hp⟩ :=
      busBestPair_some_inv gd start_ end_ A B sel hsel
    obtain ⟨hs, he, hcl, hpa, hpb, hscore⟩ :=
      pairOf_props gd start_ end_ a b sel hp
    rw [heq] at hsel
    injection hsel with h1
    have hmin := selMin_none_min BusSel.score _ sel h1
    refine ⟨?_, ?_, ?_, ?_, ?_, hscore, ?_⟩
    · rw [hs]; exact ha
    · rw [he]; exact hb
    · rw [hs, he]; exact hcl
    · rw [hs]; exact hpa
    · rw [he]; exact hpb
    · intro a' ha' b' hb' ca cb hca hcb hcl'
      rcases hclab : commonLines a' b' with _ | ⟨l0, ls⟩
      · exact absurd hclab hcl'
      · have hpo : pairOf gd start_ end_ a' b'
            = some ⟨a', ca, b', cb, l0, gd start_ ca + gd end_ cb⟩ := by
          simp only [pairOf, hclab, hca, hcb]
        have hmem : (⟨a', ca, b', cb, l0, gd start_ ca + gd end_ cb⟩ : BusSel)
            ∈ pairsList gd start_ end_ A B := by
          refine List.mem_flatMap.mpr ⟨a', ha', ?_⟩
          exact List.mem_filterMap.mpr ⟨b', hb', hpo⟩
        exact hmin _ hmem
  · intro a0 b0 ha0 hb0 hcl0 huniq
    rcases hclab : commonLines a0 b0 with _ | ⟨l0, ls⟩
    · exact absurd hclab hcl0
    · obtain ⟨ca, hca⟩ := Option.isSome_iff_exists.mp (hAv a0 ha0)
      obtain ⟨cb, hcb⟩ := Option.isSome_iff_exists.mp (hBv b0 hb0)
      have hpo : pairOf gd start_ end_ a0 b0
          = some ⟨a0, ca, b0, cb, l0, gd start_ ca + gd end_ cb⟩ := by
        simp only [pairOf, hclab, hca, hcb]
      have hmem : (⟨a0, ca, b0, cb, l0, gd start_ ca + gd end_ cb⟩ : BusSel)
          ∈ pairsList gd start_ end_ A B := by
        refine List.mem_flatMap.mpr ⟨a0, ha0, ?_⟩
        exact List.mem_filterMap.mpr ⟨b0, hb0, hpo⟩
      rcases hsel : selMin BusSel.score none (pairsList gd start_ end_ A B)
          with _ | sel
      · have hnil := (selMin_none_iff BusSel.score _).mp hsel
        rw [hnil] at hmem
        cases hmem
      · obtain ⟨a, ha, b, hb, hp⟩ := busBestPair_some_inv gd start_ end_ A B
          sel (by rw [heq, hsel])
        obtain ⟨hs, he, _, _, _, _⟩ := pairOf_props gd start_ end_ a b sel hp
        obtain ⟨hae, hbe⟩ := huniq a ha b hb
          (by
            obtain ⟨_, _, hclab', _, _, _⟩ :=
              pairOf_props gd start_ end_ a b sel hp
            exact hclab')
        exact ⟨sel, by rw [heq, hsel], by rw [hs, hae], by rw [he, hbe]⟩

/-- Witness for C3 at a concrete input: two stops both carrying line C2, the
pairing over the `k_closest` candidate sets completes. -/
theorem bus_pairing_selector_witness :
    busBestPair wGd (0, 0) (0, 10) [wStopS, wStopE] [wStopE, wStopS]
      ≠ none := by
  have hA : k_closest wGd wBuses (0, 0) 20 = some [wStopS, wStopE] := by
    norm_num [k_closest, truthyFields, keyed, sortByKey, sortInsert,
      parsePoint, GeoVal.truthy, Record.fieldsD, wGd, wBuses, wStopS, wStopE,
      List.filterMap_cons, List.filterMap_nil]
  have hB : k_closest wGd wBuses (0, 10) 20 = some [wStopE, wStopS] := by
    norm_num [k_closest, truthyFields, keyed, sortByKey, sortInsert,
      parsePoint, GeoVal.truthy, Record.fieldsD, wGd, wBuses, wStopS, wStopE,
      List.filterMap_cons, List.filterMap_nil]
  exact (bus_pairing_selector wGd wBuses (0, 0) (0, 10)
    [wStopS, wStopE] [wStopE, wStopS] hA hB).1

/-! ### Route composer -/

theorem find_closest_c_mem_coord (gd : Dist) (records : List Record)
    (ref : Coord) (p : Fields) (pc : Coord)
    (h : find_closest_c gd records ref = some (p, pc)) :
    ∃ r ∈ records, r.fieldsD = p ∧ coordOf p = some pc := by
  rw [find_closest_c_eq] at h
  have hmem := selMin_none_mem _ _ _ h
  obtain ⟨r, hr, hrf, hco⟩ := withCoords_mem hmem
  exact ⟨r, hr, hrf, hco⟩

/-- C6: in Car/ParkingGarage mode, when no parking is found the composer
emits no route legs and reports the terminal no-parking failure (and no
error); when a parking is found and both leg requests succeed, the plan is
exactly the drive and walk legs and the reported total is the sum of both
durations plus the traffic penalty computed over the driving leg only. -/
theorem car_garage_mode (gd : Dist) (prov : Provider)
    (parkings bikes traffic buses : List Record) (start_ end_ : Coord) :
    (find_closest gd parkings end_ = none →
      (get_route_data gd prov parkings bikes traffic buses "Car"
          (some "Parking garage") start_ end_).1
        = { notice := .noParking }) ∧
    (∀ p pc r1 r2,
      find_closest_c gd parkings end_ = some (p, pc) →
      prov [Prod.swap start_, Prod.swap pc] "driving-car" = some r1 →
      prov [Prod.swap pc, Prod.swap end_] "foot-walking" = some r2 →
      (get_route_data gd prov parkings bikes traffic buses "Car"
          (some "Parking garage") start_ end_).1.routes
        = [⟨r1, "blue", "Drive to parking"⟩,
           ⟨r2, "green", "Walk to destination"⟩] ∧
      (get_route_data gd prov parkings bikes traffic buses "Car"
          (some "Parking garage") start_ end_).1.notice
        = .carTotal (r1.duration + r2.duration
            + traffic_penalty_seconds gd (.geom r1) traffic 50)
            (traffic_penalty_seconds gd (.geom r1) traffic 50)) := by
  have hred : get_route_data gd prov parkings bikes traffic buses "Car"
      (some "Parking garage") start_ end_
      = carGarageBranch gd prov parkings traffic start_ end_ := rfl
  constructor
  · intro hnone
    rw [hred]
    have hc : find_closest_c gd parkings end_ = none :=
      Option.map_eq_none'.mp hnone
    simp only [carGarageBranch, hc]
  · intro p pc r1 r2 hfc hr1 hr2
    rw [hred]
    simp only [carGarageBranch, hfc, hr1, hr2]
    exact ⟨trivial, trivial⟩

/-- Witness for C6: at a concrete parking dataset and an always-answering
provider, the two-leg plan and its total are reported. -/
theorem car_garage_mode_witness :
    (get_route_data wGd wProvAll wRecs [] [] [] "Car" (some "Parking garage")
        (1, 1) (0, 0)).1.routes
      = [⟨wLegD, "blue", "Drive to parking"⟩,
         ⟨wLegW, "green", "Walk to destination"⟩] ∧
    (get_route_data wGd wProvAll wRecs [] [] [] "Car" (some "Parking garage")
        (1, 1) (0, 0)).1.notice
      = .carTotal (wLegD.duration + wLegW.duration
          + traffic_penalty_seconds wGd (.geom wLegD) [] 50)
          (traffic_penalty_seconds wGd (.geom wLegD) [] 50) := by
  have hfc : find_closest_c wGd wRecs (0, 0) = some (wFNear, (0, 1)) := by
    norm_num [find_closest_c, fcStep, coordOf, parsePoint, GeoVal.truthy,
      Record.fieldsD, wGd, wRecs, wRecFar, wRecNear, wRecBad, wRecNone, wFNear]
  exact (car_garage_mode wGd wProvAll wRecs [] [] [] (1, 1) (0, 0)).2
    wFNear (0, 1) wLegD wLegW hfc rfl rfl

theorem busBestPair_nil_right (gd : Dist) (start_ end_ : Coord)
    (A : List Fields) : busBestPair gd start_ end_ A [] = some none := by
  unfold busBestPair
  induction A with
  | nil => rfl
  | cons a as ih => rw [List.foldl_cons]; exact ih

/-- C7: in Bus mode, when a stop pair is found and all three leg requests
succeed, the reported total duration is the sum of the walk-to-stop, bus
(drive-profile) and walk-from-stop leg durations plus the fixed 420-second
wait constant. -/
theorem bus_mode_total (gd : Dist) (prov : Provider)
    (parkings bikes traffic buses : List Record) (start_ end_ : Coord)
    (A B : List Fields) (sel : BusSel) (w1 w2 br : Leg)
    (hA : k_closest gd buses start_ 20 = some A)
    (hB : k_closest gd buses end_ 20 = some B)
    (hsel : busBestPair gd start_ end_ A B = some (some sel))
    (hw1 : prov [Prod.swap start_, Prod.swap sel.sc] "foot-walking" = some w1)
    (hw2 : prov [Prod.swap sel.ec, Prod.swap end_] "foot-walking" = some w2)
    (hbr : prov [Prod.swap sel.sc, Prod.swap sel.ec] "driving-car"
      = some br) :
    (get_route_data gd prov parkings bikes traffic buses "Bus" none
        start_ end_).1.notice
      = .busTotal sel.line (w1.duration + br.duration + w2.duration + 420) ∧
    (get_route_data gd prov parkings bikes traffic buses "Bus" none
        start_ end_).1.routes
      = [⟨w1, "green", "Walk to bus"⟩, ⟨w2, "green", "Walk from bus"⟩,
         ⟨br, "red", "Línea " ++ sel.line⟩] := by
  have hred : get_route_data gd prov parkings bikes traffic buses "Bus" none
      start_ end_ = busBranch gd prov buses start_ end_ := rfl
  have hAne : A.isEmpty = false := by
    rcases A with _ | ⟨a, as⟩
    · rw [show busBestPair gd start_ end_ [] B = some none from rfl] at hsel
      injection hsel with h1
      cases h1
    · rfl
  have hBne : B.isEmpty = false := by
    rcases B with _ | ⟨b, bs⟩
    · rw [busBestPair_nil_right] at hsel
      injection hsel with h1
      cases h1
    · rfl
  rw [hred]
  simp only [busBranch, hA, hB, hAne, hBne]
  norm_num [hsel, hw1, hw2, hbr]

/-- Witness for C7: the two-stop line-C2 dataset, an always-answering
provider; the notice totals 300 + 600 + 300 + 420 over the three legs. -/
theorem bus_mode_total_witness :
    (get_route_data wGd wProvAll [] [] [] wBuses "Bus" none (0, 0)
        (0, 10)).1.notice
      = .busTotal wSel.line (wLegW.duration + wLegD.duration
          + wLegW.duration + 420) ∧
    (get_route_data wGd wProvAll [] [] [] wBuses "Bus" none (0, 0)
        (0, 10)).1.routes
      = [⟨wLegW, "green", "Walk to bus"⟩, ⟨wLegW, "green", "Walk from bus"⟩,
         ⟨wLegD, "red", "Línea " ++ wSel.line⟩] := by
  have hA : k_closest wGd wBuses (0, 0) 20 = some [wStopS, wStopE] := by
    norm_num [k_closest, truthyFields, keyed, sortByKey, sortInsert,
      parsePoint, GeoVal.truthy, Record.fieldsD, wGd, wBuses, wStopS, wStopE,
      List.filterMap_cons, List.filterMap_nil]
  have hB : k_closest wGd wBuses (0, 10) 20 = some [wStopE, wStopS] := by
    norm_num [k_closest, truthyFields, keyed, sortByKey, sortInsert,
      parsePoint, GeoVal.truthy, Record.fieldsD, wGd, wBuses, wStopS, wStopE,
      List.filterMap_cons, List.filterMap_nil]
  have hcSE : commonLines wStopS wStopE = ["C2"] := by decide
  have hcSS : commonLines wStopS wStopS = ["C2"] := by decide
  have hcEE : commonLines wStopE wStopE = ["C2"] := by decide
  have hcES : commonLines wStopE wStopS = ["C2"] := by decide
  have hpS : parsePoint wStopS.geo_point_2d = some (0, 1) := by decide
  have hpE : parsePoint wStopE.geo_point_2d = some (0, 9) := by decide
  have hsel : busBestPair wGd (0, 0) (0, 10) [wStopS, wStopE]
      [wStopE, wStopS] = some (some wSel) := by
    norm_num [busBestPair, busPairStep, hcSE, hcSS, hcEE, hcES, hpS, hpE,
      wGd, wSel, List.foldl_cons, List.foldl_nil]
  exact bus_mode_total wGd wProvAll [] [] [] wBuses (0, 0) (0, 10)
    [wStopS, wStopE] [wStopE, wStopS] wSel wLegW wLegW wLegD hA hB hsel
    rfl rfl rfl

theorem carGarageBranch_fail (gd : Dist) (prov : Provider)
    (parkings traffic : List Record) (start_ end_ : Coord) (c : ProviderCall)
    (hc : c ∈ (carGarageBranch gd prov parkings traffic start_ end_).2)
    (hfail : prov c.coords c.profile = none) :
    (carGarageBranch gd prov parkings traffic start_ end_).1.routes = [] ∧
      (carGarageBranch gd prov parkings traffic start_ end_).1.error
        = false := by
  unfold carGarageBranch at hc ⊢
  rcases hfc : find_closest_c gd parkings end_ with _ | ⟨p, pc⟩
  · simp only [hfc] at hc
    cases hc
  · simp only [hfc] at hc ⊢
    rcases h1 : prov [Prod.swap start_, Prod.swap pc] "driving-car" with _ | r1
    · simp only [h1] at hc ⊢
      exact ⟨trivial, trivial⟩
    · rcases h2 : prov [Prod.swap pc, Prod.swap end_] "foot-walking"
          with _ | r2
      · simp only [h1, h2] at hc ⊢
        exact ⟨trivial, trivial⟩
      · simp only [h1, h2] at hc
        rcases List.mem_cons.mp hc with rfl | hc2
        · dsimp only at hfail
          rw [h1] at hfail
          cases hfail
        · rcases List.mem_cons.mp hc2 with rfl | hc3
          · dsimp only at hfail
            rw [h2] at hfail
            cases hfail
          · cases hc3

theorem carStreetBranch_fail (gd : Dist) (prov : Provider)
    (traffic : List Record) (start_ end_ : Coord) (c : ProviderCall)
    (hc : c ∈ (carStreetBranch gd prov traffic start_ end_).2)
    (hfail : prov c.coords c.profile = none) :
    (carStreetBranch gd prov traffic start_ end_).1.routes = [] ∧
      (carStreetBranch gd prov traffic start_ end_).1.error = false := by
  unfold carStreetBranch at hc ⊢
  rcases h1 : prov [Prod.swap start_, Prod.swap end_] "driving-car" with _ | r
  · simp only [h1] at hc ⊢
    exact ⟨trivial, trivial⟩
  · simp only [h1] at hc
    rcases List.mem_cons.mp hc with rfl | hc2
    · dsimp only at hfail
      rw [h1] at hfail
      cases hfail
    · cases hc2

theorem walkingBranch_fail (prov : Provider) (start_ end_ : Coord)
    (c : ProviderCall) (hc : c ∈ (walkingBranch prov start_ end_).2)
    (hfail : prov c.coords c.profile = none) :
    (walkingBranch prov start_ end_).1.routes = [] ∧
      (walkingBranch prov start_ end_).1.error = false := by
  unfold walkingBranch at hc ⊢
  rcases h1 : prov [Prod.swap start_, Prod.swap end_] "foot-walking" with _ | r
  · simp only [h1] at hc ⊢
    exact ⟨trivial, trivial⟩
  · simp only [h1] at hc
    rcases List.mem_cons.mp hc with rfl | hc2
    · dsimp only at hfail
      rw [h1] at hfail
      cases hfail
    · cases hc2

theorem valenbisiBranch_fail (gd : Dist) (prov : Provider)
    (bikes : List Record) (start_ end_ : Coord) (c : ProviderCall)
    (hc : c ∈ (valenbisiBranch gd prov bikes start_ end_).2)
    (hfail : prov c.coords c.profile = none) :
    (valenbisiBranch gd prov bikes start_ end_).1.routes = [] ∧
      (valenbisiBranch gd prov bikes start_ end_).1.error = false := by
  unfold valenbisiBranch at hc ⊢
  rcases hf1 : find_closest_c gd bikes start_ with _ | ⟨s1, cS⟩
  · simp only [hf1] at hc
    cases hc
  · rcases hf2 : find_closest_c gd bikes end_ with _ | ⟨s2, cE⟩
    · simp only [hf1, hf2] at hc
      cases hc
    · simp only [hf1, hf2] at hc ⊢
      rcases h1 : prov [Prod.swap start_, Prod.swap cS] "foot-walking"
          with _ | w1
      · simp only [h1] at hc ⊢
        exact ⟨trivial, trivial⟩
      · rcases h2 : prov [Prod.swap cS, Prod.swap cE] "cycling-regular"
            with _ | bk
        · simp only [h1, h2] at hc ⊢
          exact ⟨trivial, trivial⟩
        · rcases h3 : prov [Prod.swap cE, Prod.swap end_] "foot-walking"
              with _ | w2
          · simp only [h1, h2, h3] at hc ⊢
            exact ⟨trivial, trivial⟩
          · simp only [h1, h2, h3] at hc
            rcases List.mem_cons.mp hc with rfl | hc2
            · dsimp only at hfail
              rw [h1] at hfail
              cases hfail
            · rcases List.mem_cons.mp hc2 with rfl | hc3
              · dsimp only at hfail
                rw [h2] at hfail
                cases hfail
              · rcases List.mem_cons.mp hc3 with rfl | hc4
                · dsimp only at hfail
                  rw [h3] at hfail
                  cases hfail
                · cases hc4

theorem busBranch_fail (gd : Dist) (prov : Provider) (buses : List Record)
    (start_ end_ : Coord) (c : ProviderCall)
    (hc : c ∈ (busBranch gd prov buses start_ end_).2)
    (hfail : prov c.coords c.profile = none) :
    (busBranch gd prov buses start_ end_).1.routes = [] ∧
      (busBranch gd prov buses start_ end_).1.error = false := by
  unfold busBranch at hc ⊢
  rcases hA : k_closest gd buses start_ 20 with _ | A
  · simp only [hA] at hc
    cases hc
  · rcases hB : k_closest gd buses end_ 20 with _ | B
    · simp only [hA, hB] at hc
      cases hc
    · simp only [hA, hB] at hc ⊢
      by_cases hne : (A.isEmpty || B.isEmpty) = true
      · rw [if_pos hne] at hc
        cases hc
      · rw [if_neg hne] at hc ⊢
        rcases hbp : busBestPair gd start_ end_ A B with _ | st
        · simp only [hbp] at hc
          cases hc
        · rcases st with _ | sel
          · simp only [hbp] at hc
            cases hc
          · simp only [hbp] at hc ⊢
            rcases h1 : prov [Prod.swap start_, Prod.swap sel.sc]
                "foot-walking" with _ | w1
            · simp only [h1] at hc ⊢
              exact ⟨trivial, trivial⟩
            · rcases h2 : prov [Prod.swap sel.ec, Prod.swap end_]
                  "foot-walking" with _ | w2
              · simp only [h1, h2] at hc ⊢
                exact ⟨trivial, trivial⟩
              · rcases h3 : prov [Prod.swap sel.sc, Prod.swap sel.ec]
                    "driving-car" with _ | br
                · simp only [h1, h2, h3] at hc ⊢
                  exact ⟨trivial, trivial⟩
                · simp only [h1, h2, h3] at hc
                  rcases List.mem_cons.mp hc with rfl | hc2
                  · dsimp only at hfail
                    rw [h1] at hfail
                    cases hfail
                  · rcases List.mem_cons.mp hc2 with rfl | hc3
                    · dsimp only at hfail
                      rw [h2] at hfail
                      cases hfail
                    · rcases List.mem_cons.mp hc3 with rfl | hc4
                      · dsimp only at hfail
                        rw [h3] at hfail
                        cases hfail
                      · cases hc4

/-- C8: in every mode, if any single directions-provider call made by the
composer fails (returns no route), the composer surfaces no route legs at all
— a partial plan with only the succeeding legs is never emitted — and the
failure is not an unhandled fault (the result's error flag stays unset).
This covers in particular the multi-leg Car/ParkingGarage, Valenbisi and Bus
modes. -/
theorem leg_failure_no_partial (gd : Dist) (prov : Provider)
    (parkings bikes traffic buses : List Record) (transport_mode : String)
    (use_parking : Option String) (start_ end_ : Coord) (c : ProviderCall)
    (hc : c ∈ (get_route_data gd prov parkings bikes traffic buses
        transport_mode use_parking start_ end_).2)
    (hfail : prov c.coords c.profile = none) :
    (get_route_data gd prov parkings bikes traffic buses transport_mode
        use_parking start_ end_).1.routes = [] ∧
    (get_route_data gd prov parkings bikes traffic buses transport_mode
        use_parking start_ end_).1.error = false := by
  unfold get_route_data at hc ⊢
  by_cases hm1 : transport_mode = "Car"
  · rw [if_pos hm1] at hc ⊢
    by_cases hp : use_parking = some "Parking garage"
    · rw [if_pos hp] at hc ⊢
      exact carGarageBranch_fail gd prov parkings traffic start_ end_ c hc
        hfail
    · rw [if_neg hp] at hc ⊢
      exact carStreetBranch_fail gd prov traffic start_ end_ c hc hfail
  · rw [if_neg hm1] at hc ⊢
    by_cases hm2 : transport_mode = "Valenbisi"
    · rw [if_pos hm2] at hc ⊢
      exact valenbisiBranch_fail gd prov bikes start_ end_ c hc hfail
    · rw [if_neg hm2] at hc ⊢
      by_cases hm3 : transport_mode = "Walking"
      · rw [if_pos hm3] at hc ⊢
        exact walkingBranch_fail prov start_ end_ c hc hfail
      · rw [if_neg hm3] at hc ⊢
        by_cases hm4 : transport_mode = "Bus"
        · rw [if_pos hm4] at hc ⊢
          exact busBranch_fail gd prov buses start_ end_ c hc hfail
        · rw [if_neg hm4] at hc ⊢
          cases hc

/-- Witness for C8: a provider whose every call fails, Walking mode; the one
call made is in the log, and the result carries no routes and no error. -/
theorem leg_failure_no_partial_witness :
    (get_route_data wGd wProvFail [] [] [] [] "Walking" none (0, 0)
        (0, 10)).1.routes = [] ∧
    (get_route_data wGd wProvFail [] [] [] [] "Walking" none (0, 0)
        (0, 10)).1.error = false :=
  leg_failure_no_partial wGd wProvFail [] [] [] [] "Walking" none (0, 0)
    (0, 10) ⟨[Prod.swap (0, 0), Prod.swap (0, 10)], "foot-walking"⟩
    (List.mem_cons_self _ _) rfl

theorem token_walk : "foot-walking" ∈ validTokens := by decide

theorem token_drive : "driving-car" ∈ validTokens := by decide

theorem token_cycle : "cycling-regular" ∈ validTokens := by decide

theorem coordOf_mem_internal (parkings bikes buses : List Record)
    (start_ end_ : Coord) (r : Record) (pc : Coord)
    (hr : r ∈ parkings ∨ r ∈ bikes ∨ r ∈ buses)
    (hco : coordOf r.fieldsD = some pc) :
    pc ∈ internalCoords parkings bikes buses start_ end_ := by
  unfold internalCoords
  refine List.mem_cons_of_mem _ (List.mem_cons_of_mem _ ?_)
  refine List.mem_filterMap.mpr ⟨r, ?_, hco⟩
  rcases hr with h | h | h <;> simp [h]

theorem start_mem_internal (parkings bikes buses : List Record)
    (start_ end_ : Coord) :
    start_ ∈ internalCoords parkings bikes buses start_ end_ :=
  List.mem_cons_self _ _

theorem end_mem_internal (parkings bikes buses : List Record)
    (start_ end_ : Coord) :
    end_ ∈ internalCoords parkings bikes buses start_ end_ :=
  List.mem_cons_of_mem _ (List.mem_cons_self _ _)

theorem carGarageBranch_calls (gd : Dist) (prov : Provider)
    (parkings bikes traffic buses : List Record) (start_ end_ : Coord)
    (c : ProviderCall)
    (hc : c ∈ (carGarageBranch gd prov parkings traffic start_ end_).2) :
    callOk parkings bikes buses start_ end_ c := by
  unfold carGarageBranch at hc
  rcases hfc : find_closest_c gd parkings end_ with _ | ⟨p, pc⟩
  · simp only [hfc] at hc
    cases hc
  · simp only [hfc] at hc
    obtain ⟨r, hr, hrf, hco⟩ :=
      find_closest_c_mem_coord gd parkings end_ p pc hfc
    have hpc : pc ∈ internalCoords parkings bikes buses start_ end_ :=
      coordOf_mem_internal parkings bikes buses start_ end_ r pc (Or.inl hr)
        (by rw [hrf]; exact hco)
    have hcl : c ∈ [(⟨[Prod.swap start_, Prod.swap pc],
        "driving-car"⟩ : ProviderCall),
        ⟨[Prod.swap pc, Prod.swap end_], "foot-walking"⟩] := by
      rcases h1 : prov [Prod.swap start_, Prod.swap pc] "driving-car"
          with _ | r1 <;>
        rcases h2 : prov [Prod.swap pc, Prod.swap end_] "foot-walking"
            with _ | r2 <;>
          simp only [h1, h2] at hc <;> exact hc
    rcases List.mem_cons.mp hcl with rfl | h
    · exact ⟨token_drive, start_, pc,
        start_mem_internal parkings bikes buses start_ end_, hpc, rfl⟩
    · rcases List.mem_cons.mp h with rfl | h2
      · exact ⟨token_walk, pc, end_, hpc,
          end_mem_internal parkings bikes buses start_ end_, rfl⟩
      · cases h2

theorem carStreetBranch_calls (gd : Dist) (prov : Provider)
    (parkings bikes traffic buses : List Record) (start_ end_ : Coord)
    (c : ProviderCall)
    (hc : c ∈ (carStreetBranch gd prov traffic start_ end_).2) :
    callOk parkings bikes buses start_ end_ c := by
  unfold carStreetBranch at hc
  have hcl : c ∈ [(⟨[Prod.swap start_, Prod.swap end_],
      "driving-car"⟩ : ProviderCall)] := by
    rcases h1 : prov [Prod.swap start_, Prod.swap end_] "driving-car"
        with _ | r1 <;> simp only [h1] at hc <;> exact hc
  rcases List.mem_cons.mp hcl with rfl | h
  · exact ⟨token_drive, start_, end_,
      start_mem_internal parkings bikes buses start_ end_,
      end_mem_internal parkings bikes buses start_ end_, rfl⟩
  · cases h

theorem walkingBranch_calls (prov : Provider)
    (parkings bikes buses : List Record) (start_ end_ : Coord)
    (c : ProviderCall) (hc : c ∈ (walkingBranch prov start_ end_).2) :
    callOk parkings bikes buses start_ end_ c := by
  unfold walkingBranch at hc
  have hcl : c ∈ [(⟨[Prod.swap start_, Prod.swap end_],
      "foot-walking"⟩ : ProviderCall)] := by
    rcases h1 : prov [Prod.swap start_, Prod.swap end_] "foot-walking"
        with _ | r1 <;> simp only [h1] at hc <;> exact hc
  rcases List.mem_cons.mp hcl with rfl | h
  · exact ⟨token_walk, start_, end_,
      start_mem_internal parkings bikes buses start_ end_,
      end_mem_internal parkings bikes buses start_ end_, rfl⟩
  · cases h

theorem valenbisiBranch_calls (gd : Dist) (prov : Provider)
    (parkings bikes buses : List Record) (start_ end_ : Coord)
    (c : ProviderCall)
    (hc : c ∈ (valenbisiBranch gd prov bikes start_ end_).2) :
    callOk parkings bikes buses start_ end_ c := by
  unfold valenbisiBranch at hc
  rcases hf1 : find_closest_c gd bikes start_ with _ | ⟨s1, cS⟩
  · simp only [hf1] at hc
    cases hc
  · rcases hf2 : find_closest_c gd bikes end_ with _ | ⟨s2, cE⟩
    · simp only [hf1, hf2] at hc
      cases hc
    · simp only [hf1, hf2] at hc
      obtain ⟨r1, hr1, hrf1, hco1⟩ :=
        find_closest_c_mem_coord gd bikes start_ s1 cS hf1
      obtain ⟨r2, hr2, hrf2, hco2⟩ :=
        find_closest_c_mem_coord gd bikes end_ s2 cE hf2
      have hcS : cS ∈ internalCoords parkings bikes buses start_ end_ :=
        coordOf_mem_internal parkings bikes buses start_ end_ r1 cS
          (Or.inr (Or.inl hr1)) (by rw [hrf1]; exact hco1)
      have hcE : cE ∈ internalCoords parkings bikes buses start_ end_ :=
        coordOf_mem_internal parkings bikes buses start_ end_ r2 cE
          (Or.inr (Or.inl hr2)) (by rw [hrf2]; exact hco2)
      have hcl : c ∈ [(⟨[Prod.swap start_, Prod.swap cS],
          "foot-walking"⟩ : ProviderCall),
          ⟨[Prod.swap cS, Prod.swap cE], "cycling-regular"⟩,
          ⟨[Prod.swap cE, Prod.swap end_], "foot-walking"⟩] := by
        rcases h1 : prov [Prod.swap start_, Prod.swap cS] "foot-walking"
            with _ | w1 <;>
          rcases h2 : prov [Prod.swap cS, Prod.swap cE] "cycling-regular"
              with _ | bk <;>
            rcases h3 : prov [Prod.swap cE, Prod.swap end_] "foot-walking"
                with _ | w2 <;>
              simp only [h1, h2, h3] at hc <;> exact hc
      rcases List.mem_cons.mp hcl with rfl | h
      · exact ⟨token_walk, start_, cS,
          start_mem_internal parkings bikes buses start_ end_, hcS, rfl⟩
      · rcases List.mem_cons.mp h with rfl | h2
        · exact ⟨token_cycle, cS, cE, hcS, hcE, rfl⟩
        · rcases List.mem_cons.mp h2 with rfl | h3
          · exact ⟨token_walk, cE, end_, hcE,
              end_mem_internal parkings bikes buses start_ end_, rfl⟩
          · cases h3

theorem busBranch_calls (gd : Dist) (prov : Provider)
    (parkings bikes buses : List Record) (start_ end_ : Coord)
    (c : ProviderCall) (hc : c ∈ (busBranch gd prov buses start_ end_).2) :
    callOk parkings bikes buses start_ end_ c := by
  unfold busBranch at hc
  rcases hA : k_closest gd buses start_ 20 with _ | A
  · simp only [hA] at hc
    cases hc
  · rcases hB : k_closest gd buses end_ 20 with _ | B
    · simp only [hA, hB] at hc
      cases hc
    · simp only [hA, hB] at hc
      by_cases hne : (A.isEmpty || B.isEmpty) = true
      · rw [if_pos hne] at hc
        cases hc
      · rw [if_neg hne] at hc
        rcases hbp : busBestPair gd start_ end_ A B with _ | st
        · simp only [hbp] at hc
          cases hc
        · rcases st with _ | sel
          · simp only [hbp] at hc
            cases hc
          · simp only [hbp] at hc
            obtain ⟨a, ha, b, hb, hp⟩ :=
              busBestPair_some_inv gd start_ end_ A B sel hbp
            obtain ⟨hsa, hse, _, hpa, hpb, _⟩ :=
              pairOf_props gd start_ end_ a b sel hp
            obtain ⟨hta, _, ra, hra, hrfa⟩ :=
              k_closest_some_valid gd buses start_ 20 A hA a ha
            obtain ⟨htb, _, rb, hrb, hrfb⟩ :=
              k_closest_some_valid gd buses end_ 20 B hB b hb
            have hcoa : coordOf ra.fieldsD = some sel.sc := by
              rw [hrfa]
              unfold coordOf
              rw [if_pos hta]
              exact hpa
            have hcob : coordOf rb.fieldsD = some sel.ec := by
              rw [hrfb]
              unfold coordOf
              rw [if_pos htb]
              exact hpb
            have hsc : sel.sc ∈ internalCoords parkings bikes buses
                start_ end_ :=
              coordOf_mem_internal parkings bikes buses start_ end_ ra sel.sc
                (Or.inr (Or.inr hra)) hcoa
            have hec : sel.ec ∈ internalCoords parkings bikes buses
                start_ end_ :=
              coordOf_mem_internal parkings bikes buses start_ end_ rb sel.ec
                (Or.inr (Or.inr hrb)) hcob
            have hcl : c ∈ [(⟨[Prod.swap start_, Prod.swap sel.sc],
                "foot-walking"⟩ : ProviderCall),
                ⟨[Prod.swap sel.ec, Prod.swap end_], "foot-walking"⟩,
                ⟨[Prod.swap sel.sc, Prod.swap sel.ec], "driving-car"⟩] := by
              rcases h1 : prov [Prod.swap start_, Prod.swap sel.sc]
                  "foot-walking" with _ | w1 <;>
                rcases h2 : prov [Prod.swap sel.ec, Prod.swap end_]
                    "foot-walking" with _ | w2 <;>
                  rcases h3 : prov [Prod.swap sel.sc, Prod.swap sel.ec]
                      "driving-car" with _ | br <;>
                    simp only [h1, h2, h3] at hc <;> exact hc
            rcases List.mem_cons.mp hcl with rfl | h
            · exact ⟨token_walk, start_, sel.sc,
                start_mem_internal parkings bikes buses start_ end_, hsc,
                rfl⟩
            · rcases List.mem_cons.mp h with rfl | h2
              · exact ⟨token_walk, sel.ec, end_, hec,
                  end_mem_internal parkings bikes buses start_ end_, rfl⟩
              · rcases List.mem_cons.mp h2 with rfl | h3
                · exact ⟨token_drive, sel.sc, sel.ec, hsc, hec, rfl⟩
                · cases h3

/-- C9: every coordinate pair the composer passes to the directions
provider, in every mode, is longitude-first — each internal (lat, lon)
coordinate (geocoded endpoint or dataset facility coordinate) is reversed at
the boundary — and the profile token is always one of "foot-walking",
"driving-car", "cycling-regular". -/
theorem provider_boundary (gd : Dist) (prov : Provider)
    (parkings bikes traffic buses : List Record) (transport_mode : String)
    (use_parking : Option String) (start_ end_ : Coord) (c : ProviderCall)
    (hc : c ∈ (get_route_data gd prov parkings bikes traffic buses
        transport_mode use_parking start_ end_).2) :
    c.profile ∈ validTokens ∧
    ∃ a b, a ∈ internalCoords parkings bikes buses start_ end_ ∧
      b ∈ internalCoords parkings bikes buses start_ end_ ∧
      c.coords = [Prod.swap a, Prod.swap b] := by
  unfold get_route_data at hc
  by_cases hm1 : transport_mode = "Car"
  · rw [if_pos hm1] at hc
    by_cases hp : use_parking = some "Parking garage"
    · rw [if_pos hp] at hc
      exact carGarageBranch_calls gd prov parkings bikes traffic buses
        start_ end_ c hc
    · rw [if_neg hp] at hc
      exact carStreetBranch_calls gd prov parkings bikes traffic buses
        start_ end_ c hc
  · rw [if_neg hm1] at hc
    by_cases hm2 : transport_mode = "Valenbisi"
    · rw [if_pos hm2] at hc
      exact valenbisiBranch_calls gd prov parkings bikes buses start_ end_
        c hc
    · rw [if_neg hm2] at hc
      by_cases hm3 : transport_mode = "Walking"
      · rw [if_pos hm3] at hc
        exact walkingBranch_calls prov parkings bikes buses start_ end_ c hc
      · rw [if_neg hm3] at hc
        by_cases hm4 : transport_mode = "Bus"
        · rw [if_pos hm4] at hc
          exact busBranch_calls gd prov parkings bikes buses start_ end_ c hc
        · rw [if_neg hm4] at hc
          cases hc

/-- Witness for C9: the single Walking-mode call is logged, carries the
"foot-walking" token and the two swapped endpoints. -/
theorem provider_boundary_witness :
    ((⟨[Prod.swap ((0 : ℚ), (0 : ℚ)), Prod.swap ((0 : ℚ), (10 : ℚ))],
        "foot-walking"⟩ : ProviderCall).profile ∈ validTokens) ∧
    ∃ a b, a ∈ internalCoords [] [] [] (0, 0) (0, 10) ∧
      b ∈ internalCoords [] [] [] (0, 0) (0, 10) ∧
      (⟨[Prod.swap ((0 : ℚ), (0 : ℚ)), Prod.swap ((0 : ℚ), (10 : ℚ))],
        "foot-walking"⟩ : ProviderCall).coords = [Prod.swap a, Prod.swap b] :=
  provider_boundary wGd wProvAll [] [] [] [] "Walking" none (0, 0) (0, 10)
    ⟨[Prod.swap (0, 0), Prod.swap (0, 10)], "foot-walking"⟩
    (List.mem_cons_self _ _)

end UrbaniaAI
